import Mathlib

/-!
Verification of the auto-add-2-cart rule engine.

This file is a shallow embedding of the two rule-evaluation code paths of the
repository:

* the storefront engine in
  `extensions/theme-auto-add/assets/auto-add.js` (`evaluateRule`,
  `processCart`, and the cart-mutation helpers it drives), and
* the server-side cart-transform entry point in
  `extensions/auto-add-2-cart/src/cart_transform_run.ts`
  (`ruleApplies`, `cartTransformRun`, `NO_CHANGES`).

Numbers follow the JSON/JS values: quantities and money-in-cents are `Int`,
money amounts compared after division are `ℚ`.  Strings are Lean `String`s;
the JS `String.prototype.replace` with a string pattern (first occurrence
only) is embedded as `replaceFirst` below.  I/O (fetching rules, posting to
`/cart/add.js`, DOM work, logging) is outside the embedding; the pure
decision logic is translated line by line.
-/

namespace AutoAdd

/-- Tagged condition variants, the union of the condition kinds appearing in
`cart_transform_run.ts` (`RuleCondition`) and in `auto-add.js`
(`product_quantity_in_range`, `cart_total_gte`); `unknown` stands for any
other JSON `type` tag. -/
inductive Condition where
  | cart_quantity_at_least (threshold : Int)
  | cart_quantity_in_range (min : Int) (max : Option Int)
  | cart_total_at_least (amount : ℚ) (currencyCode : Option String)
  | includes_any_variants (variantIds : List String)
  | includes_any_products (productIds : List String)
  | includes_any_collections (collectionIds : List String)
  | product_quantity_in_range (productId : String) (min : Int) (max : Option Int)
  | cart_total_gte (value : ℚ)
  | unknown (type : String)
  deriving DecidableEq, Repr

/-- The `RuleAction` record of `cart_transform_run.ts`. -/
structure RuleAction where
  addVariantId : String
  quantity : Option Int := none
  titleOverride : Option String := none
  deriving DecidableEq, Repr

/-- The `AutoAddRule` record of `cart_transform_run.ts`; the storefront JS
consumes the same JSON shape. -/
structure AutoAddRule where
  id : String
  active : Bool
  group : Option String := none
  conditions : List Condition
  action : RuleAction
  deriving DecidableEq, Repr

/-- A cart mutation intent: the three cart calls `processCart` can make
(`/cart/change.js` with quantity 0, `/cart/change.js` with a quantity,
`/cart/add.js`). -/
inductive Intent where
  | remove (key : String)
  | setQuantity (key : String) (quantity : Int)
  | add (variantId : String) (quantity : Int)
  deriving DecidableEq, Repr

/-- One line of the `/cart.js` snapshot as read by `auto-add.js`:
`key`, `variant_id` and `product_id` (numbers in JS, used through `String(_)`
coercions, hence strings here), `quantity`, and the `_auto_added` property.
`unit_price` is the line's unit price in cents, so that `total_price` is
derivable. -/
structure Item where
  key : String
  variant_id : String
  product_id : String
  quantity : Int
  auto_added : Bool
  unit_price : Int
  deriving DecidableEq, Repr

/-- The storefront cart snapshot. -/
structure Cart where
  items : List Item
  deriving DecidableEq, Repr

/-- The GID stem stripped/added around variant ids in `auto-add.js`. -/
def variantGidRoot : String := "gid://shopify/ProductVariant/"

/-- The GID stem stripped from `cond.productId` in `auto-add.js`. -/
def productGidRoot : String := "gid://shopify/Product/"

/-- Replace the first occurrence of `pat` by the empty string, on character
lists (JS `String.prototype.replace` with a string pattern and `''`). -/
def replaceFirstAux (pat : List Char) : List Char → List Char
  | [] => []
  | c :: rest =>
    if pat.isPrefixOf (c :: rest) then (c :: rest).drop pat.length
    else c :: replaceFirstAux pat rest

/-- JS `s.replace(pat, '')`. -/
def replaceFirst (s pat : String) : String := ⟨replaceFirstAux pat.data s.data⟩

/-- `variantId.replace('gid://shopify/ProductVariant/', '')`. -/
def stripVariantGid (s : String) : String := replaceFirst s variantGidRoot

/-- `cond.productId.replace('gid://shopify/Product/', '')`. -/
def stripProductGid (s : String) : String := replaceFirst s productGidRoot

/-- `'gid://shopify/ProductVariant/' + item.variant_id`. -/
def itemVariantGid (it : Item) : String := variantGidRoot ++ it.variant_id

/-- JS truthiness of `rule.group` (`undefined` and `''` are falsy). -/
def ruleGroup (r : AutoAddRule) : Option String :=
  match r.group with
  | some g => if g = "" then none else some g
  | none => none

/-- `cart.total_price` of the `/cart.js` snapshot, derived as the sum of the
line totals in cents. -/
def totalPrice (cart : Cart) : Int :=
  (cart.items.map (fun it => it.unit_price * it.quantity)).sum

/-- The quantity summed by the `product_quantity_in_range` branch of
`evaluateRule` in `auto-add.js`: lines carrying the `_auto_added` property
are skipped, the rest contribute when `String(item.product_id)` equals the
target. -/
def manualProductQty (targetProductId : String) (cart : Cart) : Int :=
  ((cart.items.filter
      (fun it => !it.auto_added && decide (it.product_id = targetProductId))).map
    (·.quantity)).sum

/-- One switch arm of `evaluateRule` in `auto-add.js`: `true` iff the
condition does not make the rule fail.  Only `product_quantity_in_range` and
`cart_total_gte` are implemented; every other `cond.type` falls to the
default branch, which fails the rule.  The JS `cart.total_price / 100` is
the exact rational `mkRat (totalPrice cart) 100`; see
`mkRat_hundred_eq_div`. -/
def evalCondJS (cart : Cart) : Condition → Bool
  | .product_quantity_in_range productId mn mx =>
    let targetProductId := stripProductGid productId
    let totalQty := manualProductQty targetProductId cart
    decide (mn ≤ totalQty) &&
      (match mx with
       | some m => decide (totalQty ≤ m)
       | none => true)
  | .cart_total_gte value =>
    decide (value ≤ mkRat (totalPrice cart) 100)
  | _ => false

/-- `evaluateRule` of `auto-add.js`: a missing/empty condition list never
matches; otherwise all conditions must hold (the loop returns `false` on the
first failing or unknown condition). -/
def evaluateRule (rule : AutoAddRule) (cart : Cart) : Bool :=
  if rule.conditions.isEmpty then false
  else rule.conditions.all (evalCondJS cart)

/-- JS `Map.prototype.set` on an insertion-ordered association list: update
in place when the key exists, append otherwise. -/
def mapSet : List (String × AutoAddRule) → String → AutoAddRule →
    List (String × AutoAddRule)
  | [], k, v => [(k, v)]
  | (k', v') :: rest, k, v =>
    if k' = k then (k, v) :: rest else (k', v') :: mapSet rest k v

/-- JS `Map.prototype.has`. -/
def containsKey (m : List (String × AutoAddRule)) (k : String) : Bool :=
  m.any (fun e => e.1 == k)

/-- JS `Map.prototype.delete`. -/
def eraseKey : List (String × AutoAddRule) → String → List (String × AutoAddRule)
  | [], _ => []
  | (k', v') :: rest, k =>
    if k' = k then rest else (k', v') :: eraseKey rest k

/-- The rule loop of `processCart` building `shouldHaveVariants`: evaluate
each rule in order, apply the `seenGroups` gate, and `Map.set` the action
variant of each surviving match. -/
def resolveAux (cart : Cart) :
    List AutoAddRule → List String → List (String × AutoAddRule) →
    List (String × AutoAddRule)
  | [], _, acc => acc
  | r :: rest, seen, acc =>
    if evaluateRule r cart then
      match ruleGroup r with
      | some g =>
        if g ∈ seen then resolveAux cart rest seen acc
        else resolveAux cart rest (g :: seen) (mapSet acc r.action.addVariantId r)
      | none => resolveAux cart rest seen (mapSet acc r.action.addVariantId r)
    else resolveAux cart rest seen acc

/-- The `shouldHaveVariants` map of `processCart` (insertion-ordered
association list, as a JS `Map`). -/
def shouldHaveVariants (rules : List AutoAddRule) (cart : Cart) :
    List (String × AutoAddRule) :=
  resolveAux cart rules [] []

/-- Proof helper: the subsequence of rules that survive the match and group
gates of the rule loop, in order.  `resolveAux` is the `mapSet`-fold over
this list (see `resolveAux_eq_fold`). -/
def selectedRulesAux (cart : Cart) : List AutoAddRule → List String → List AutoAddRule
  | [], _ => []
  | r :: rest, seen =>
    if evaluateRule r cart then
      match ruleGroup r with
      | some g =>
        if g ∈ seen then selectedRulesAux cart rest seen
        else r :: selectedRulesAux cart rest (g :: seen)
      | none => r :: selectedRulesAux cart rest seen
    else selectedRulesAux cart rest seen

/-- `cart.items.filter(item => item.properties?._auto_added === 'true')`. -/
def autoAddedItems (cart : Cart) : List Item :=
  cart.items.filter (·.auto_added)

/-- The first reconciliation loop of `processCart`: over the auto-added
items, remove those whose variant left `shouldHaveVariants`, force quantity
1 on the others, and consume their map entry.  Returns the emitted intents
and the remaining map. -/
def reconcileManaged : List Item → List (String × AutoAddRule) →
    List Intent × List (String × AutoAddRule)
  | [], sh => ([], sh)
  | it :: rest, sh =>
    let gid := itemVariantGid it
    if containsKey sh gid then
      let res := reconcileManaged rest (eraseKey sh gid)
      (if it.quantity ≠ 1 then Intent.setQuantity it.key 1 :: res.1 else res.1,
       res.2)
    else
      let res := reconcileManaged rest sh
      (Intent.remove it.key :: res.1, res.2)

/-- The second reconciliation loop of `processCart`: over the remaining
`shouldHaveVariants` entries, add the missing gift, skip manual lines, and
fix the quantity of an auto-added line with a wrong quantity. -/
def reconcileMissing (cart : Cart) : List (String × AutoAddRule) → List Intent
  | [] => []
  | (variantGid, _rule) :: rest =>
    let numericId := stripVariantGid variantGid
    match cart.items.find? (fun it => it.variant_id == numericId) with
    | none => Intent.add variantGid 1 :: reconcileMissing cart rest
    | some existingItem =>
      if !existingItem.auto_added then reconcileMissing cart rest
      else if existingItem.quantity ≠ 1 then
        Intent.setQuantity existingItem.key 1 :: reconcileMissing cart rest
      else reconcileMissing cart rest

/-- The pure core of `processCart` in `auto-add.js`: the ordered list of cart
mutations one evaluation cycle performs on a cart snapshot (the busy flag,
cart-token caching and UI refresh around it are caller plumbing). -/
def processCart (rules : List AutoAddRule) (cart : Cart) : List Intent :=
  let sh := shouldHaveVariants rules cart
  let res := reconcileManaged (autoAddedItems cart) sh
  res.1 ++ reconcileMissing cart res.2

/-- The storefront catalog as the mutation applier sees it: unit price in
cents and owning product of a variant id.  External collaborator data needed
only to model applying an `add` intent. -/
structure Catalog where
  price : String → Int
  product : String → String

/-- The cart line created by applying an `add` intent (`/cart/add.js` posts
the numeric variant id with the `_auto_added` property). -/
def mkAddedItem (cat : Catalog) (variantGid : String) (quantity : Int) : Item :=
  let vid := stripVariantGid variantGid
  { key := vid
    variant_id := vid
    product_id := cat.product vid
    quantity := quantity
    auto_added := true
    unit_price := cat.price vid }

/-- Apply one mutation intent to a cart snapshot. -/
def applyIntent (cat : Catalog) (cart : Cart) : Intent → Cart
  | .remove k => { items := cart.items.filter (fun it => it.key ≠ k) }
  | .setQuantity k q =>
    { items := cart.items.map
        (fun it => if it.key = k then { it with quantity := q } else it) }
  | .add v q => { items := cart.items ++ [mkAddedItem cat v q] }

/-- Apply an intent list in order. -/
def applyIntents (cat : Catalog) (cart : Cart) (intents : List Intent) : Cart :=
  intents.foldl (applyIntent cat) cart

/-- One line of `CartTransformRunInput["cart"]["lines"]` as read by
`cart_transform_run.ts`: the merchandise typename test, optional merchandise
and product ids, quantity, the parsed `cost.totalAmount` (`none` models a
`parseFloat` NaN), and its currency code.  `autoAdded` records whether the
line carries the storefront's `_auto_added` attribute; `cart_transform_run.ts`
never reads it. -/
structure ServerLine where
  id : String
  isVariant : Bool
  merchId : Option String
  productId : Option String
  quantity : Int
  amount : Option ℚ
  currencyCode : String
  autoAdded : Bool
  deriving DecidableEq, Repr

/-- The transform input: cart lines plus the already-parsed
`shop.collectionIndex` metafield (`parseCollectionIndex` turns the JSON into
a product-id-to-collection-ids mapping; a parse failure yields the empty
mapping). -/
structure CartTransformRunInput where
  lines : List ServerLine
  collectionIndex : List (String × List String)
  deriving DecidableEq, Repr

/-- JS `String.prototype.trim`: strip leading and trailing whitespace
(executable embedding of the `.trim()` calls in `cart_transform_run.ts`). -/
def strTrim (s : String) : String :=
  ⟨((s.data.dropWhile Char.isWhitespace).reverse.dropWhile
      Char.isWhitespace).reverse⟩

/-- `cartQuantity` of `cart_transform_run.ts`. -/
def cartQuantity (input : CartTransformRunInput) : Int :=
  input.lines.foldl (fun sum l => sum + l.quantity) 0

/-- `cartTotalAmount` of `cart_transform_run.ts`: summed parsed line totals
(NaN as 0) and the first line's currency code. -/
def cartTotalAmount (input : CartTransformRunInput) : ℚ × Option String :=
  input.lines.foldl
    (fun acc l => (acc.1 + l.amount.getD 0, acc.2.orElse (fun _ => some l.currencyCode)))
    (0, none)

/-- `includesAnyVariant` of `cart_transform_run.ts` (with JS truthiness on
`merch.id`). -/
def includesAnyVariant (input : CartTransformRunInput) (variantIds : List String) : Bool :=
  input.lines.any (fun l =>
    l.isVariant &&
      (match l.merchId with
       | some i => !(i == "") && variantIds.contains i
       | none => false))

/-- Lookup in the parsed collection index (`Map.prototype.get`). -/
def indexLookup (idx : List (String × List String)) (pid : String) :
    Option (List String) :=
  (idx.find? (fun e => e.1 == pid)).map Prod.snd

/-- One switch arm of the condition loop in `ruleApplies`
(`cart_transform_run.ts`): `true` iff the condition does not fail the rule.
The `cart_total_gte` tag is not among its cases and falls to the default
branch, as does `unknown`. -/
def condHolds (input : CartTransformRunInput) : Condition → Bool
  | .cart_quantity_at_least threshold =>
    decide (threshold ≤ cartQuantity input)
  | .cart_total_at_least amount currencyCode =>
    let res := cartTotalAmount input
    decide (amount ≤ res.1) &&
      !(match currencyCode, res.2 with
        | some cc, some cur => !(cc == "") && !(cur == "") && !(cc == cur)
        | _, _ => false)
  | .includes_any_variants variantIds => includesAnyVariant input variantIds
  | .includes_any_products productIds =>
    input.lines.any (fun l =>
      l.isVariant &&
        (match l.productId with
         | some p => !(p == "") && productIds.contains p
         | none => false))
  | .includes_any_collections collectionIds =>
    input.lines.any (fun l =>
      match (if l.isVariant then l.productId else none) with
      | some p =>
        if p == "" then false
        else
          match indexLookup input.collectionIndex p with
          | some colls => colls.any (fun c => collectionIds.contains c)
          | none => false
      | none => false)
  | .cart_quantity_in_range mn mx =>
    let q := cartQuantity input
    decide (mn ≤ q) &&
      (match mx with
       | some m => decide (q ≤ m)
       | none => true)
  | .product_quantity_in_range productId mn mx =>
    let targetPid := strTrim productId
    let total := input.lines.foldl
      (fun t l =>
        if (if l.isVariant then l.productId.map strTrim else none)
            = some targetPid then
          t + l.quantity
        else t)
      0
    decide (mn ≤ total) &&
      (match mx with
       | some m => decide (total ≤ m)
       | none => true)
  | .cart_total_gte _ => false
  | .unknown _ => false

/-- `ruleApplies` of `cart_transform_run.ts`: inactive rules fail, then every
condition in the list must hold (the loop returns `false` on the first
failing or unknown condition, and `true` when it runs out of conditions). -/
def ruleApplies (rule : AutoAddRule) (input : CartTransformRunInput) : Bool :=
  rule.active && rule.conditions.all (condHolds input)

/-- Modelled from the spec: the cart-transform `Operation` type comes from
the platform-generated `../generated/api`, which is not part of `src/`; its
exact shape is irrelevant to the claims, so it is kept abstract with a
single constructor carrying an uninterpreted payload. -/
inductive Operation where
  | op (tag : String)
  deriving DecidableEq, Repr

/-- The `CartTransformRunResult` shape: a list of operations. -/
structure CartTransformRunResult where
  operations : List Operation
  deriving DecidableEq, Repr

/-- `NO_CHANGES` of `cart_transform_run.ts`. -/
def NO_CHANGES : CartTransformRunResult := { operations := [] }

/-- `cartTransformRun` of `cart_transform_run.ts`: the function body ignores
its input and passes through (the comment in the source says gift logic is
handled by the theme JS). -/
def cartTransformRun (_input : CartTransformRunInput) : CartTransformRunResult :=
  NO_CHANGES

/-- The condition kinds the storefront `evaluateRule` actually implements. -/
def storefrontHandled : Condition → Bool
  | .product_quantity_in_range _ _ _ => true
  | .cart_total_gte _ => true
  | _ => false

/-- Manual-only items of a cart (lines without the `_auto_added` property). -/
def manualItems (cart : Cart) : List Item :=
  cart.items.filter (fun it => !it.auto_added)

/-- The key (if any) a mutation intent addresses an existing line by. -/
def targetKey : Intent → Option String
  | .remove k => some k
  | .setQuantity k _ => some k
  | .add _ _ => none

/-! Concrete example data used by the counterexample and witness theorems. -/

/-- A rule adding gift variant 1 when the cart total reaches 30 dollars. -/
def ruleTotal30 : AutoAddRule :=
  { id := "r30", active := true,
    conditions := [Condition.cart_total_gte 30],
    action := { addVariantId := variantGidRoot ++ "1" } }

/-- A rule adding gift variant 2 when the cart total reaches 50 dollars. -/
def ruleTotal50 : AutoAddRule :=
  { id := "r50", active := true,
    conditions := [Condition.cart_total_gte 50],
    action := { addVariantId := variantGidRoot ++ "2" } }

/-- A cart holding one manual line worth 3000 cents. -/
def cartOneManual : Cart :=
  { items := [{ key := "a", variant_id := "9", product_id := "p9",
                quantity := 1, auto_added := false, unit_price := 3000 }] }

/-- A catalog where gift variant 1 costs 2500 cents and others are free. -/
def pricedCatalog : Catalog :=
  { price := fun v => if v = "1" then 2500 else 0, product := fun v => "p" ++ v }

/-- A catalog of free variants. -/
def freeCatalog : Catalog :=
  { price := fun _ => 0, product := fun v => "p" ++ v }

/-- A rule adding free gift variant 5 when the cart total reaches 10 dollars. -/
def ruleFreeGift : AutoAddRule :=
  { id := "rf", active := true,
    conditions := [Condition.cart_total_gte 10],
    action := { addVariantId := variantGidRoot ++ "5" } }

/-- A cart holding one manual line worth 2000 cents. -/
def cartManual2000 : Cart :=
  { items := [{ key := "b", variant_id := "8", product_id := "p8",
                quantity := 1, auto_added := false, unit_price := 2000 }] }

/-- A rule triggered by exactly one unit of product 7 in the cart. -/
def triggerRule : AutoAddRule :=
  { id := "rt", active := true,
    conditions := [Condition.product_quantity_in_range "gid://shopify/Product/7" 1 (some 1)],
    action := { addVariantId := variantGidRoot ++ "9" } }

/-- A manually added transform-input line of product 7. -/
def serverManualLine : ServerLine :=
  { id := "l1", isVariant := true, merchId := some "v7",
    productId := some "gid://shopify/Product/7", quantity := 1,
    amount := some 10, currencyCode := "USD", autoAdded := false }

/-- An engine-added gift line of the same product 7. -/
def serverGiftLine : ServerLine :=
  { id := "l2", isVariant := true, merchId := some "v9",
    productId := some "gid://shopify/Product/7", quantity := 1,
    amount := some 0, currencyCode := "USD", autoAdded := true }

/-- Transform input containing only the manual line. -/
def inputNoGift : CartTransformRunInput :=
  { lines := [serverManualLine], collectionIndex := [] }

/-- Transform input containing the manual line plus the engine-added gift. -/
def inputWithGift : CartTransformRunInput :=
  { lines := [serverManualLine, serverGiftLine], collectionIndex := [] }

/-- An engine-added storefront line of product 7. -/
def giftItemOf7 : Item :=
  { key := "g", variant_id := "9", product_id := "7",
    quantity := 1, auto_added := true, unit_price := 0 }

/-- A storefront cart holding one manual unit of product 7. -/
def cartManual7 : Cart :=
  { items := [{ key := "m", variant_id := "7", product_id := "7",
                quantity := 1, auto_added := false, unit_price := 500 }] }

/-- A rule whose action demands quantity 2 of gift variant 77 and whose
condition always holds. -/
def quantityRule : AutoAddRule :=
  { id := "rq", active := true,
    conditions := [Condition.cart_total_gte 0],
    action := { addVariantId := variantGidRoot ++ "77", quantity := some 2 } }

/-- The empty storefront cart. -/
def emptyCart : Cart := { items := [] }

/-- An active rule with an empty condition list. -/
def emptyCondRule : AutoAddRule :=
  { id := "re", active := true, conditions := [],
    action := { addVariantId := "x" } }

/-- The empty transform input. -/
def emptyServerInput : CartTransformRunInput :=
  { lines := [], collectionIndex := [] }

/-- First rule of the shared exclusivity group `tier`. -/
def groupRuleA : AutoAddRule :=
  { id := "ga", active := true, group := some "tier",
    conditions := [Condition.cart_total_gte 0],
    action := { addVariantId := variantGidRoot ++ "11" } }

/-- Second rule of the shared exclusivity group `tier`. -/
def groupRuleB : AutoAddRule :=
  { id := "gb", active := true, group := some "tier",
    conditions := [Condition.cart_total_gte 0],
    action := { addVariantId := variantGidRoot ++ "12" } }

/-- A rule whose gift variant 5 always should be in the cart. -/
def manualGiftRule : AutoAddRule :=
  { id := "rm", active := true,
    conditions := [Condition.cart_total_gte 0],
    action := { addVariantId := variantGidRoot ++ "5" } }

/-- A line the customer manually added: gift variant 5 with quantity 3. -/
def manualGiftLine : Item :=
  { key := "mg", variant_id := "5", product_id := "p5",
    quantity := 3, auto_added := false, unit_price := 0 }

/-- A cart where the customer manually added gift variant 5 with quantity 3. -/
def cartWithManualGift : Cart := { items := [manualGiftLine] }

/-- A rule with a condition of an unrecognized kind. -/
def unknownCondRule : AutoAddRule :=
  { id := "ru", active := true,
    conditions := [Condition.unknown "mystery_kind"],
    action := { addVariantId := variantGidRoot ++ "3" } }

/-- A rule with a condition kind the server knows but the storefront does
not implement. -/
def serverOnlyCondRule : AutoAddRule :=
  { id := "rs", active := true,
    conditions := [Condition.cart_quantity_at_least 0],
    action := { addVariantId := variantGidRoot ++ "4" } }

/-! ### String helper lemmas -/

theorem mkRat_hundred_eq_div (t : Int) : (mkRat t 100 : ℚ) = (t : ℚ) / 100 := by
  rw [Rat.mkRat_eq_div]
  norm_num

theorem isPrefixOf_append_self (p l : List Char) : p.isPrefixOf (p ++ l) = true := by
  induction p with
  | nil => simp [List.isPrefixOf]
  | cons c cs ih => simp [List.isPrefixOf, ih]

theorem replaceFirstAux_append (p l : List Char) :
    replaceFirstAux p (p ++ l) = l := by
  cases hp : p ++ l with
  | nil =>
    rcases List.append_eq_nil.mp hp with ⟨h1, h2⟩
    simp [replaceFirstAux, h2]
  | cons c t =>
    rw [← hp]
    cases p with
    | nil => simp [replaceFirstAux] at hp ⊢; cases hp; simp [replaceFirstAux]
    | cons a as =>
      have : (a :: as) ++ l = a :: (as ++ l) := rfl
      rw [this]
      show replaceFirstAux (a :: as) (a :: (as ++ l)) = l
      unfold replaceFirstAux
      rw [show a :: (as ++ l) = (a :: as) ++ l from rfl,
        isPrefixOf_append_self]
      simp

theorem data_append (s t : String) : (s ++ t).data = s.data ++ t.data := rfl

theorem stripVariantGid_append (s : String) :
    stripVariantGid (variantGidRoot ++ s) = s := by
  show replaceFirst (variantGidRoot ++ s) variantGidRoot = s
  unfold replaceFirst
  rw [data_append, replaceFirstAux_append]

theorem variantGidRoot_append_inj {s t : String}
    (h : variantGidRoot ++ s = variantGidRoot ++ t) : s = t := by
  have := congrArg stripVariantGid h
  rwa [stripVariantGid_append, stripVariantGid_append] at this

/-! ### Association-list lemmas (`mapSet`, `containsKey`, `eraseKey`) -/

theorem containsKey_iff (m : List (String × AutoAddRule)) (k : String) :
    containsKey m k = true ↔ k ∈ m.map Prod.fst := by
  constructor
  · intro h
    rcases List.any_eq_true.mp h with ⟨e, he, hk⟩
    exact List.mem_map.mpr ⟨e, he, beq_iff_eq.mp hk⟩
  · intro h
    rcases List.mem_map.mp h with ⟨e, he, hk⟩
    exact List.any_eq_true.mpr ⟨e, he, beq_iff_eq.mpr hk⟩

theorem mem_keys_mapSet (m : List (String × AutoAddRule)) (k : String)
    (v : AutoAddRule) (x : String) :
    x ∈ (mapSet m k v).map Prod.fst ↔ x ∈ m.map Prod.fst ∨ x = k := by
  induction m with
  | nil => simp [mapSet]
  | cons e rest ih =>
    obtain ⟨k', v'⟩ := e
    by_cases h : k' = k
    · subst h
      simp [mapSet]
      tauto
    · simp [mapSet, h, ih]
      tauto

theorem nodup_keys_mapSet (m : List (String × AutoAddRule)) (k : String)
    (v : AutoAddRule) (h : (m.map Prod.fst).Nodup) :
    ((mapSet m k v).map Prod.fst).Nodup := by
  induction m with
  | nil => simp [mapSet]
  | cons e rest ih =>
    obtain ⟨k', v'⟩ := e
    rw [List.map_cons, List.nodup_cons] at h
    by_cases hk : k' = k
    · subst hk
      have hms : mapSet ((k', v') :: rest) k' v = (k', v) :: rest := by
        simp [mapSet]
      rw [hms, List.map_cons, List.nodup_cons]
      exact h
    · have hms : mapSet ((k', v') :: rest) k v = (k', v') :: mapSet rest k v := by
        simp [mapSet, hk]
      rw [hms, List.map_cons, List.nodup_cons]
      refine ⟨?_, ih h.2⟩
      intro hmem
      rcases (mem_keys_mapSet rest k v k').mp hmem with h1 | h1
      · exact h.1 h1
      · exact hk h1

theorem eraseKey_eq_filter (m : List (String × AutoAddRule)) (k : String)
    (h : (m.map Prod.fst).Nodup) :
    eraseKey m k = m.filter (fun e => decide (e.1 ≠ k)) := by
  induction m with
  | nil => simp [eraseKey]
  | cons e rest ih =>
    obtain ⟨k', v'⟩ := e
    rw [List.map_cons, List.nodup_cons] at h
    by_cases hk : k' = k
    · subst hk
      have he : eraseKey ((k', v') :: rest) k' = rest := by simp [eraseKey]
      have hf : ((k', v') :: rest).filter (fun e => decide (e.1 ≠ k')) =
          rest.filter (fun e => decide (e.1 ≠ k')) := by
        simp [List.filter_cons]
      rw [he, hf]
      symm
      rw [List.filter_eq_self]
      intro e he2
      by_cases hek : e.1 = k'
      · have hm : e.1 ∈ rest.map Prod.fst := List.mem_map_of_mem Prod.fst he2
        rw [hek] at hm
        exact absurd hm h.1
      · simp [hek]
    · have he : eraseKey ((k', v') :: rest) k = (k', v') :: eraseKey rest k := by
        simp [eraseKey, hk]
      have hf : ((k', v') :: rest).filter (fun e => decide (e.1 ≠ k)) =
          (k', v') :: rest.filter (fun e => decide (e.1 ≠ k)) := by
        simp [List.filter_cons, hk]
      rw [he, hf, ih h.2]

/-! ### Rule-matching lemmas -/

theorem resolveAux_eq_fold (cart : Cart) (rules : List AutoAddRule) :
    ∀ (seen : List String) (acc : List (String × AutoAddRule)),
    resolveAux cart rules seen acc =
      (selectedRulesAux cart rules seen).foldl
        (fun m r => mapSet m r.action.addVariantId r) acc := by
  induction rules with
  | nil => intro seen acc; rfl
  | cons r rest ih =>
    intro seen acc
    by_cases hm : evaluateRule r cart = true
    · cases hg : ruleGroup r with
      | none => simp [resolveAux, selectedRulesAux, hm, hg, ih]
      | some g =>
        by_cases hs : g ∈ seen
        · simp [resolveAux, selectedRulesAux, hm, hg, hs, ih]
        · simp [resolveAux, selectedRulesAux, hm, hg, hs, ih]
    · have hm' : evaluateRule r cart = false := Bool.eq_false_iff.mpr hm
      simp [resolveAux, selectedRulesAux, hm', ih]

theorem keys_foldl_mapSet_mono (l : List AutoAddRule) :
    ∀ (acc : List (String × AutoAddRule)) (x : String),
    x ∈ acc.map Prod.fst →
    x ∈ ((l.foldl (fun m r => mapSet m r.action.addVariantId r) acc).map Prod.fst) := by
  induction l with
  | nil => intro acc x h; simpa using h
  | cons r rest ih =>
    intro acc x h
    simp only [List.foldl_cons]
    exact ih _ x ((mem_keys_mapSet acc _ r x).mpr (Or.inl h))

theorem mem_keys_foldl_mapSet (l : List AutoAddRule) :
    ∀ (acc : List (String × AutoAddRule)) (r : AutoAddRule), r ∈ l →
    r.action.addVariantId ∈
      ((l.foldl (fun m r => mapSet m r.action.addVariantId r) acc).map Prod.fst) := by
  induction l with
  | nil => intro acc r h; exact absurd h (List.not_mem_nil r)
  | cons a rest ih =>
    intro acc r h
    simp only [List.foldl_cons]
    rcases List.mem_cons.mp h with h1 | h1
    · subst h1
      exact keys_foldl_mapSet_mono rest _ _
        ((mem_keys_mapSet acc _ r _).mpr (Or.inr rfl))
    · exact ih _ r h1

theorem keys_foldl_mapSet_sub (l : List AutoAddRule) :
    ∀ (acc : List (String × AutoAddRule)) (x : String),
    x ∈ ((l.foldl (fun m r => mapSet m r.action.addVariantId r) acc).map Prod.fst) →
    x ∈ acc.map Prod.fst ∨ ∃ r ∈ l, x = r.action.addVariantId := by
  induction l with
  | nil => intro acc x h; exact Or.inl (by simpa using h)
  | cons a rest ih =>
    intro acc x h
    simp only [List.foldl_cons] at h
    rcases ih _ x h with h1 | h1
    · rcases (mem_keys_mapSet acc _ a x).mp h1 with h2 | h2
      · exact Or.inl h2
      · exact Or.inr ⟨a, List.mem_cons_self a rest, h2⟩
    · rcases h1 with ⟨r, hr, hx⟩
      exact Or.inr ⟨r, List.mem_cons_of_mem a hr, hx⟩

theorem nodup_keys_foldl_mapSet (l : List AutoAddRule) :
    ∀ (acc : List (String × AutoAddRule)), (acc.map Prod.fst).Nodup →
    ((l.foldl (fun m r => mapSet m r.action.addVariantId r) acc).map Prod.fst).Nodup := by
  induction l with
  | nil => intro acc h; simpa using h
  | cons a rest ih =>
    intro acc h
    simp only [List.foldl_cons]
    exact ih _ (nodup_keys_mapSet acc _ a h)

theorem shouldHave_keys_nodup (rules : List AutoAddRule) (cart : Cart) :
    ((shouldHaveVariants rules cart).map Prod.fst).Nodup := by
  unfold shouldHaveVariants
  rw [resolveAux_eq_fold]
  exact nodup_keys_foldl_mapSet _ _ (by simp)

theorem selectedRulesAux_subset (cart : Cart) (rules : List AutoAddRule) :
    ∀ (seen : List String) (r : AutoAddRule),
    r ∈ selectedRulesAux cart rules seen → r ∈ rules := by
  induction rules with
  | nil => intro seen r h; exact absurd h (List.not_mem_nil r)
  | cons a rest ih =>
    intro seen r h
    by_cases hm : evaluateRule a cart = true
    · cases hg : ruleGroup a with
      | none =>
        simp only [selectedRulesAux, hm, hg, if_true] at h
        rcases List.mem_cons.mp h with h1 | h1
        · exact h1 ▸ List.mem_cons_self a rest
        · exact List.mem_cons_of_mem a (ih seen r h1)
      | some g =>
        by_cases hs : g ∈ seen
        · simp only [selectedRulesAux, hm, hg, hs, if_true] at h
          exact List.mem_cons_of_mem a (ih seen r h)
        · simp only [selectedRulesAux, hm, hg, hs, if_true, if_false] at h
          rcases List.mem_cons.mp h with h1 | h1
          · exact h1 ▸ List.mem_cons_self a rest
          · exact List.mem_cons_of_mem a (ih _ r h1)
    · have hm' : evaluateRule a cart = false := Bool.eq_false_iff.mpr hm
      simp only [selectedRulesAux, hm'] at h
      exact List.mem_cons_of_mem a (ih seen r (by simpa using h))

theorem shouldHave_keys_wf (rules : List AutoAddRule) (cart : Cart) (x : String)
    (h : x ∈ (shouldHaveVariants rules cart).map Prod.fst) :
    ∃ r ∈ rules, x = r.action.addVariantId := by
  unfold shouldHaveVariants at h
  rw [resolveAux_eq_fold] at h
  rcases keys_foldl_mapSet_sub _ _ x h with h1 | h1
  · simp at h1
  · rcases h1 with ⟨r, hr, hx⟩
    exact ⟨r, selectedRulesAux_subset cart rules [] r hr, hx⟩

/-! ### Congruence of rule evaluation in the manual lines and the total -/

theorem manualProductQty_congr (t : String) (c1 c2 : Cart)
    (h : manualItems c1 = manualItems c2) :
    manualProductQty t c1 = manualProductQty t c2 := by
  have h1 : ∀ (c : Cart),
      manualProductQty t c =
        (((manualItems c).filter (fun it => decide (it.product_id = t))).map
          (·.quantity)).sum := by
    intro c
    unfold manualProductQty manualItems
    rw [List.filter_filter]
    have hc : ∀ (l : List Item),
        l.filter (fun it => !it.auto_added && decide (it.product_id = t)) =
          l.filter (fun a => decide (a.product_id = t) && !a.auto_added) := by
      intro l
      apply List.filter_congr
      intro x _
      exact Bool.and_comm _ _
    rw [hc]
  rw [h1, h1, h]

theorem evalCondJS_congr (c1 c2 : Cart) (cond : Condition)
    (hm : manualItems c1 = manualItems c2)
    (ht : totalPrice c1 = totalPrice c2) :
    evalCondJS c1 cond = evalCondJS c2 cond := by
  cases cond
  case product_quantity_in_range pid mn mx =>
    simp only [evalCondJS]
    rw [manualProductQty_congr _ c1 c2 hm]
  case cart_total_gte v =>
    simp only [evalCondJS]
    rw [ht]
  all_goals rfl

theorem evaluateRule_congr (r : AutoAddRule) (c1 c2 : Cart)
    (hm : manualItems c1 = manualItems c2)
    (ht : totalPrice c1 = totalPrice c2) :
    evaluateRule r c1 = evaluateRule r c2 := by
  unfold evaluateRule
  have hall : r.conditions.all (evalCondJS c1) = r.conditions.all (evalCondJS c2) := by
    induction r.conditions with
    | nil => rfl
    | cons c cs ih => simp [List.all_cons, ih, evalCondJS_congr c1 c2 c hm ht]
  rw [hall]

theorem resolveAux_congr (c1 c2 : Cart) (rules : List AutoAddRule)
    (h : ∀ r ∈ rules, evaluateRule r c1 = evaluateRule r c2) :
    ∀ (seen : List String) (acc : List (String × AutoAddRule)),
    resolveAux c1 rules seen acc = resolveAux c2 rules seen acc := by
  induction rules with
  | nil => intro seen acc; rfl
  | cons a rest ih =>
    intro seen acc
    have ha : evaluateRule a c1 = evaluateRule a c2 := h a (List.mem_cons_self a rest)
    have hrest : ∀ r ∈ rest, evaluateRule r c1 = evaluateRule r c2 :=
      fun r hr => h r (List.mem_cons_of_mem a hr)
    simp only [resolveAux, ha]
    by_cases hm : evaluateRule a c2 = true
    · simp only [hm, if_true]
      cases hg : ruleGroup a with
      | none => exact ih hrest _ _
      | some g =>
        by_cases hs : g ∈ seen
        · simp only [hs, if_true]
          exact ih hrest _ _
        · simp only [hs, if_false]
          exact ih hrest _ _
    · have hm' : evaluateRule a c2 = false := Bool.eq_false_iff.mpr hm
      simp only [hm', Bool.false_eq_true, if_false]
      exact ih hrest _ _

theorem shouldHave_congr (rules : List AutoAddRule) (c1 c2 : Cart)
    (h : ∀ r ∈ rules, evaluateRule r c1 = evaluateRule r c2) :
    shouldHaveVariants rules c1 = shouldHaveVariants rules c2 :=
  resolveAux_congr c1 c2 rules h [] []

/-! ### Group-exclusivity lemmas -/

theorem selectedRulesAux_filter_group_of_seen (cart : Cart) (g : String)
    (rules : List AutoAddRule) :
    ∀ (seen : List String), g ∈ seen →
    (selectedRulesAux cart rules seen).filter (fun r => ruleGroup r == some g) = [] := by
  induction rules with
  | nil => intro seen hs; rfl
  | cons a rest ih =>
    intro seen hs
    by_cases hm : evaluateRule a cart = true
    · cases hg : ruleGroup a with
      | none =>
        simp only [selectedRulesAux, hm, hg, if_true]
        rw [List.filter_cons]
        have hb : ((none : Option String) == some g) = false := rfl
        simp only [hg, hb, if_false]
        exact ih seen hs
      | some g' =>
        by_cases hseen : g' ∈ seen
        · simp only [selectedRulesAux, hm, hg, hseen, if_true]
          exact ih seen hs
        · have hgg : g' ≠ g := fun he => hseen (he ▸ hs)
          simp only [selectedRulesAux, hm, hg, hseen, if_true, if_false]
          rw [List.filter_cons]
          have hb : ((some g' : Option String) == some g) = false :=
            beq_eq_false_iff_ne.mpr (fun hx => hgg (Option.some.inj hx))
          simp only [hg, hb, if_false]
          exact ih (g' :: seen) (List.mem_cons_of_mem g' hs)
    · have hm' : evaluateRule a cart = false := Bool.eq_false_iff.mpr hm
      simp only [selectedRulesAux, hm', Bool.false_eq_true, if_false]
      exact ih seen hs

theorem selectedRulesAux_filter_group_of_not_seen (cart : Cart) (g : String)
    (rules : List AutoAddRule) :
    ∀ (seen : List String), g ∉ seen →
    (selectedRulesAux cart rules seen).filter (fun r => ruleGroup r == some g) =
      (rules.find? (fun r => ruleGroup r == some g && evaluateRule r cart)).toList := by
  induction rules with
  | nil => intro seen hs; rfl
  | cons a rest ih =>
    intro seen hs
    by_cases hm : evaluateRule a cart = true
    · cases hg : ruleGroup a with
      | none =>
        have hb : ((none : Option String) == some g) = false := rfl
        simp only [selectedRulesAux, hm, hg, if_true]
        rw [List.filter_cons, List.find?_cons]
        simp only [hg, hb, hm, Bool.false_and, if_false]
        exact ih seen hs
      | some g' =>
        by_cases hseen : g' ∈ seen
        · have hgg : g' ≠ g := fun he => hs (he ▸ hseen)
          have hb : ((some g' : Option String) == some g) = false :=
            beq_eq_false_iff_ne.mpr (fun hx => hgg (Option.some.inj hx))
          simp only [selectedRulesAux, hm, hg, hseen, if_true]
          rw [List.find?_cons]
          simp only [hg, hb, Bool.false_and]
          exact ih seen hs
        · by_cases hgg : g' = g
          · subst hgg
            have hb : ((some g' : Option String) == some g') = true := by simp
            simp only [selectedRulesAux, hm, hg, hseen, if_true, if_false]
            rw [List.filter_cons, List.find?_cons]
            simp only [hg, hb, hm, Bool.true_and, if_true]
            rw [selectedRulesAux_filter_group_of_seen cart g' rest (g' :: seen)
              (List.mem_cons_self g' seen)]
            rfl
          · have hb : ((some g' : Option String) == some g) = false :=
              beq_eq_false_iff_ne.mpr (fun hx => hgg (Option.some.inj hx))
            simp only [selectedRulesAux, hm, hg, hseen, if_true, if_false]
            rw [List.filter_cons, List.find?_cons]
            simp only [hg, hb, Bool.false_and, if_false]
            exact ih (g' :: seen)
              (fun hx => (List.mem_cons.mp hx).elim (fun he => hgg he.symm) hs)
    · have hm' : evaluateRule a cart = false := Bool.eq_false_iff.mpr hm
      simp only [selectedRulesAux, hm', Bool.false_eq_true, if_false]
      rw [List.find?_cons]
      simp only [hm', Bool.and_false]
      exact ih seen hs

/-! ### Reconciler lemmas -/

theorem reconcileManaged_fst_mem (items : List Item) :
    ∀ (sh : List (String × AutoAddRule)) (i : Intent),
    i ∈ (reconcileManaged items sh).1 →
    (∃ it ∈ items, i = Intent.remove it.key) ∨
    (∃ it ∈ items, it.quantity ≠ 1 ∧ i = Intent.setQuantity it.key 1) := by
  induction items with
  | nil => intro sh i h; exact absurd h (List.not_mem_nil i)
  | cons it rest ih =>
    intro sh i h
    by_cases hc : containsKey sh (itemVariantGid it) = true
    · by_cases hq : it.quantity = 1
      · simp only [reconcileManaged, hc, if_true, hq, ne_eq, not_true_eq_false,
          if_false] at h
        rcases ih _ i h with ⟨a, ha, he⟩ | ⟨a, ha, hq1, he⟩
        · exact Or.inl ⟨a, List.mem_cons_of_mem it ha, he⟩
        · exact Or.inr ⟨a, List.mem_cons_of_mem it ha, hq1, he⟩
      · simp only [reconcileManaged, hc, if_true, hq, ne_eq, not_false_eq_true,
          if_true] at h
        rcases List.mem_cons.mp h with h1 | h1
        · exact Or.inr ⟨it, List.mem_cons_self it rest, hq, h1⟩
        · rcases ih _ i h1 with ⟨a, ha, he⟩ | ⟨a, ha, hq1, he⟩
          · exact Or.inl ⟨a, List.mem_cons_of_mem it ha, he⟩
          · exact Or.inr ⟨a, List.mem_cons_of_mem it ha, hq1, he⟩
    · have hc' : containsKey sh (itemVariantGid it) = false := Bool.eq_false_iff.mpr hc
      simp only [reconcileManaged, hc', Bool.false_eq_true, if_false] at h
      rcases List.mem_cons.mp h with h1 | h1
      · exact Or.inl ⟨it, List.mem_cons_self it rest, h1⟩
      · rcases ih _ i h1 with ⟨a, ha, he⟩ | ⟨a, ha, hq1, he⟩
        · exact Or.inl ⟨a, List.mem_cons_of_mem it ha, he⟩
        · exact Or.inr ⟨a, List.mem_cons_of_mem it ha, hq1, he⟩

theorem reconcileManaged_targets_sublist (items : List Item) :
    ∀ (sh : List (String × AutoAddRule)),
    ((reconcileManaged items sh).1.filterMap targetKey).Sublist
      (items.map (·.key)) := by
  induction items with
  | nil => intro sh; simp [reconcileManaged]
  | cons it rest ih =>
    intro sh
    by_cases hc : containsKey sh (itemVariantGid it) = true
    · by_cases hq : it.quantity = 1
      · simp only [reconcileManaged, hc, if_true, hq, ne_eq, not_true_eq_false,
          if_false, List.map_cons]
        exact (ih _).cons _
      · simp only [reconcileManaged, hc, if_true, hq, ne_eq, not_false_eq_true,
          if_true, List.map_cons, List.filterMap_cons, targetKey]
        exact (ih _).cons₂ _
    · have hc' : containsKey sh (itemVariantGid it) = false := Bool.eq_false_iff.mpr hc
      simp only [reconcileManaged, hc', Bool.false_eq_true, if_false,
        List.map_cons, List.filterMap_cons, targetKey]
      exact (ih _).cons₂ _

theorem reconcileManaged_snd (items : List Item) :
    ∀ (sh : List (String × AutoAddRule)), (sh.map Prod.fst).Nodup →
    (reconcileManaged items sh).2 =
      sh.filter (fun e => decide (e.1 ∉ items.map itemVariantGid)) := by
  induction items with
  | nil =>
    intro sh h
    simp only [reconcileManaged, List.map_nil]
    symm
    rw [List.filter_eq_self]
    intro e _
    simp
  | cons it rest ih =>
    intro sh h
    by_cases hc : containsKey sh (itemVariantGid it) = true
    · have hnd : ((eraseKey sh (itemVariantGid it)).map Prod.fst).Nodup := by
        rw [eraseKey_eq_filter _ _ h]
        exact h.sublist ((List.filter_sublist sh).map Prod.fst)
      simp only [reconcileManaged, hc, if_true]
      rw [ih _ hnd, eraseKey_eq_filter _ _ h, List.filter_filter]
      apply List.filter_congr
      intro e _
      rw [← Bool.decide_and]
      apply decide_eq_decide.mpr
      simp only [List.map_cons, List.mem_cons, not_or]
      tauto
    · have hc' : containsKey sh (itemVariantGid it) = false := Bool.eq_false_iff.mpr hc
      have hnm : itemVariantGid it ∉ sh.map Prod.fst := fun hmem =>
        hc ((containsKey_iff _ _).mpr hmem)
      simp only [reconcileManaged, hc', Bool.false_eq_true, if_false]
      rw [ih _ h]
      apply List.filter_congr
      intro e he
      apply decide_eq_decide.mpr
      have : e.1 ≠ itemVariantGid it := fun hx => by
        have : e.1 ∈ sh.map Prod.fst := List.mem_map_of_mem Prod.fst he
        rw [hx] at this
        exact hnm this
      simp only [List.map_cons, List.mem_cons, not_or]
      tauto

theorem reconcileMissing_mem (cart : Cart) :
    ∀ (sh : List (String × AutoAddRule)) (i : Intent),
    i ∈ reconcileMissing cart sh →
    (∃ v, v ∈ sh.map Prod.fst ∧ i = Intent.add v 1 ∧
        cart.items.find? (fun it => it.variant_id == stripVariantGid v) = none) ∨
    (∃ it ∈ cart.items, it.auto_added = true ∧ it.quantity ≠ 1 ∧
        i = Intent.setQuantity it.key 1) := by
  intro sh
  induction sh with
  | nil => intro i h; exact absurd h (List.not_mem_nil i)
  | cons e rest ih =>
    obtain ⟨v, r⟩ := e
    intro i h
    cases hf : cart.items.find? (fun it => it.variant_id == stripVariantGid v) with
    | none =>
      simp only [reconcileMissing, hf] at h
      rcases List.mem_cons.mp h with h1 | h1
      · exact Or.inl ⟨v, by simp, h1, hf⟩
      · rcases ih i h1 with ⟨w, hw, he, hfw⟩ | h2
        · exact Or.inl ⟨w, by simp [hw], he, hfw⟩
        · exact Or.inr h2
    | some m =>
      have hm_mem : m ∈ cart.items := List.mem_of_find?_eq_some hf
      by_cases ha : m.auto_added = true
      · by_cases hq : m.quantity = 1
        · simp only [reconcileMissing, hf, ha, Bool.not_true, Bool.false_eq_true,
            if_false, hq, ne_eq, not_true_eq_false] at h
          rcases ih i h with ⟨w, hw, he, hfw⟩ | h2
          · exact Or.inl ⟨w, by simp [hw], he, hfw⟩
          · exact Or.inr h2
        · simp only [reconcileMissing, hf, ha, Bool.not_true, Bool.false_eq_true,
            if_false, hq, ne_eq, not_false_eq_true, if_true] at h
          rcases List.mem_cons.mp h with h1 | h1
          · exact Or.inr ⟨m, hm_mem, ha, hq, h1⟩
          · rcases ih i h1 with ⟨w, hw, he, hfw⟩ | h2
            · exact Or.inl ⟨w, by simp [hw], he, hfw⟩
            · exact Or.inr h2
      · have ha' : m.auto_added = false := Bool.eq_false_iff.mpr ha
        simp only [reconcileMissing, hf, ha', Bool.not_false, if_true] at h
        rcases ih i h with ⟨w, hw, he, hfw⟩ | h2
        · exact Or.inl ⟨w, by simp [hw], he, hfw⟩
        · exact Or.inr h2

theorem reconcileMissing_char (cart : Cart) :
    ∀ (sh : List (String × AutoAddRule)),
    (∀ e ∈ sh, ∃ s, e.1 = variantGidRoot ++ s) →
    (∀ e ∈ sh, e.1 ∉ (autoAddedItems cart).map itemVariantGid) →
    reconcileMissing cart sh =
      sh.filterMap (fun e =>
        match cart.items.find? (fun it => it.variant_id == stripVariantGid e.1) with
        | none => some (Intent.add e.1 1)
        | some _ => none) := by
  intro sh
  induction sh with
  | nil => intro _ _; rfl
  | cons e rest ih =>
    obtain ⟨v, r⟩ := e
    intro hwf hna
    have hwfv : ∃ s, v = variantGidRoot ++ s := hwf (v, r) (List.mem_cons_self _ _)
    have hnav : v ∉ (autoAddedItems cart).map itemVariantGid :=
      hna (v, r) (List.mem_cons_self _ _)
    have hwf' : ∀ e ∈ rest, ∃ s, e.1 = variantGidRoot ++ s :=
      fun e he => hwf e (List.mem_cons_of_mem _ he)
    have hna' : ∀ e ∈ rest, e.1 ∉ (autoAddedItems cart).map itemVariantGid :=
      fun e he => hna e (List.mem_cons_of_mem _ he)
    cases hf : cart.items.find? (fun it => it.variant_id == stripVariantGid v) with
    | none =>
      simp only [reconcileMissing, hf, List.filterMap_cons]
      rw [ih hwf' hna']
    | some m =>
      have hm_mem : m ∈ cart.items := List.mem_of_find?_eq_some hf
      have hm_pred := List.find?_some hf
      have hm_var : m.variant_id = stripVariantGid v := by simpa using hm_pred
      have hmanual : m.auto_added = false := by
        rcases hwfv with ⟨s, hs⟩
        by_contra hauto
        have hauto' : m.auto_added = true := Bool.not_eq_false _ |>.mp hauto
        have hmauto : m ∈ autoAddedItems cart :=
          List.mem_filter.mpr ⟨hm_mem, hauto'⟩
        have hgid : itemVariantGid m = v := by
          unfold itemVariantGid
          rw [hm_var, hs, stripVariantGid_append, ← hs]
        have : v ∈ (autoAddedItems cart).map itemVariantGid := by
          rw [← hgid]
          exact List.mem_map_of_mem itemVariantGid hmauto
        exact hnav this
      simp only [reconcileMissing, hf, hmanual, Bool.not_false, if_true,
        List.filterMap_cons]
      exact ih hwf' hna'

/-! ### Applying intents to a cart -/

theorem applyIntents_append (cat : Catalog) (c : Cart) (a b : List Intent) :
    applyIntents cat c (a ++ b) = applyIntents cat (applyIntents cat c a) b := by
  unfold applyIntents
  rw [List.foldl_append]

theorem applyIntents_adds (cat : Catalog) (is : List Intent) :
    ∀ (c : Cart), (∀ i ∈ is, ∃ v, i = Intent.add v 1) →
    (applyIntents cat c is).items = c.items ++ is.filterMap (fun i =>
      match i with
      | Intent.add v q => some (mkAddedItem cat v q)
      | _ => none) := by
  induction is with
  | nil => intro c _; simp [applyIntents]
  | cons i rest ih =>
    intro c h
    rcases h i (List.mem_cons_self i rest) with ⟨v, rfl⟩
    have hstep : applyIntents cat c (Intent.add v 1 :: rest) =
        applyIntents cat (applyIntent cat c (Intent.add v 1)) rest := rfl
    rw [hstep, ih _ (fun j hj => h j (List.mem_cons_of_mem _ hj))]
    simp [applyIntent, List.filterMap_cons, List.append_assoc]

theorem applyIntents_rm_set (cat : Catalog) (is : List Intent) :
    ∀ (c : Cart),
    (∀ i ∈ is, (∃ k, i = Intent.remove k) ∨ (∃ k, i = Intent.setQuantity k 1)) →
    (is.filterMap targetKey).Nodup →
    (applyIntents cat c is).items = c.items.filterMap (fun it =>
      if Intent.remove it.key ∈ is then none
      else if Intent.setQuantity it.key 1 ∈ is then some { it with quantity := 1 }
      else some it) := by
  induction is with
  | nil =>
    intro c _ _
    simp only [applyIntents, List.foldl_nil, List.not_mem_nil, if_false]
    symm
    simp [List.filterMap_some]
  | cons i rest ih =>
    intro c hshape hnd
    have hshape' : ∀ j ∈ rest,
        (∃ k, j = Intent.remove k) ∨ (∃ k, j = Intent.setQuantity k 1) :=
      fun j hj => hshape j (List.mem_cons_of_mem _ hj)
    rcases hshape i (List.mem_cons_self i rest) with ⟨k, rfl⟩ | ⟨k, rfl⟩
    · have hnd' : (rest.filterMap targetKey).Nodup := by
        rw [List.filterMap_cons] at hnd
        simp only [targetKey] at hnd
        exact hnd.of_cons
      have hstep : applyIntents cat c (Intent.remove k :: rest) =
          applyIntents cat (applyIntent cat c (Intent.remove k)) rest := rfl
      rw [hstep, ih _ hshape' hnd']
      show (c.items.filter (fun it => decide (it.key ≠ k))).filterMap _ = _
      rw [List.filterMap_filter]
      apply List.filterMap_congr
      intro it _
      by_cases hk : it.key = k
      · have h1 : Intent.remove it.key ∈ Intent.remove k :: rest := by
          rw [hk]; exact List.mem_cons_self _ _
        simp [hk, h1]
      · have h1 : (Intent.remove it.key ∈ Intent.remove k :: rest) ↔
            (Intent.remove it.key ∈ rest) := by
          constructor
          · intro hm
            rcases List.mem_cons.mp hm with he | he
            · exact absurd (Intent.remove.inj he) hk
            · exact he
          · exact List.mem_cons_of_mem _
        have h2 : (Intent.setQuantity it.key 1 ∈ Intent.remove k :: rest) ↔
            (Intent.setQuantity it.key 1 ∈ rest) := by
          constructor
          · intro hm
            rcases List.mem_cons.mp hm with he | he
            · exact absurd he (by simp)
            · exact he
          · exact List.mem_cons_of_mem _
        simp [hk, h1, h2]
    · have hkt : (Intent.setQuantity k 1 :: rest).filterMap targetKey =
          k :: rest.filterMap targetKey := by
        rw [List.filterMap_cons]; rfl
      rw [hkt, List.nodup_cons] at hnd
      have hstep : applyIntents cat c (Intent.setQuantity k 1 :: rest) =
          applyIntents cat (applyIntent cat c (Intent.setQuantity k 1)) rest := rfl
      rw [hstep, ih _ hshape' hnd.2]
      show ((c.items.map fun it =>
          if it.key = k then { it with quantity := 1 } else it).filterMap _) = _
      rw [List.filterMap_map]
      apply List.filterMap_congr
      intro it _
      by_cases hk : it.key = k
      · have hrm : Intent.remove k ∉ rest := by
          intro hm
          exact hnd.1 (List.mem_filterMap.mpr ⟨Intent.remove k, hm, rfl⟩)
        have hsq : Intent.setQuantity k 1 ∉ rest := by
          intro hm
          exact hnd.1 (List.mem_filterMap.mpr ⟨Intent.setQuantity k 1, hm, rfl⟩)
        have hrm2 : Intent.remove it.key ∉ Intent.setQuantity k 1 :: rest := by
          intro hm
          rcases List.mem_cons.mp hm with he | he
          · exact absurd he (by simp)
          · rw [hk] at he; exact hrm he
        have hsq2 : Intent.setQuantity it.key 1 ∈ Intent.setQuantity k 1 :: rest := by
          rw [hk]; exact List.mem_cons_self _ _
        simp [hk, hrm, hsq, hrm2, hsq2]
      · have h1 : (Intent.remove it.key ∈ Intent.setQuantity k 1 :: rest) ↔
            (Intent.remove it.key ∈ rest) := by
          constructor
          · intro hm
            rcases List.mem_cons.mp hm with he | he
            · exact absurd he (by simp)
            · exact he
          · exact List.mem_cons_of_mem _
        have h2 : (Intent.setQuantity it.key 1 ∈ Intent.setQuantity k 1 :: rest) ↔
            (Intent.setQuantity it.key 1 ∈ rest) := by
          constructor
          · intro hm
            rcases List.mem_cons.mp hm with he | he
            · exact absurd ((Intent.setQuantity.inj he).1) hk
            · exact he
          · exact List.mem_cons_of_mem _
        simp only [Function.comp_apply, hk, if_false, h1, h2]

theorem reconcileManaged_fst_char (items : List Item) :
    ∀ (sh : List (String × AutoAddRule)),
    (items.map itemVariantGid).Nodup → (sh.map Prod.fst).Nodup →
    (reconcileManaged items sh).1 = items.filterMap (fun it =>
      if itemVariantGid it ∈ sh.map Prod.fst then
        (if it.quantity ≠ 1 then some (Intent.setQuantity it.key 1) else none)
      else some (Intent.remove it.key)) := by
  induction items with
  | nil => intro sh _ _; rfl
  | cons it rest ih =>
    intro sh hgid hsh
    rw [List.map_cons, List.nodup_cons] at hgid
    by_cases hc : containsKey sh (itemVariantGid it) = true
    · have hmem : itemVariantGid it ∈ sh.map Prod.fst := (containsKey_iff _ _).mp hc
      have hnd2 : ((eraseKey sh (itemVariantGid it)).map Prod.fst).Nodup := by
        rw [eraseKey_eq_filter _ _ hsh]
        exact hsh.sublist ((List.filter_sublist sh).map Prod.fst)
      have ihe := ih (eraseKey sh (itemVariantGid it)) hgid.2 hnd2
      have hsame : rest.filterMap (fun it' =>
          if itemVariantGid it' ∈ (eraseKey sh (itemVariantGid it)).map Prod.fst then
            (if it'.quantity ≠ 1 then some (Intent.setQuantity it'.key 1) else none)
          else some (Intent.remove it'.key)) =
          rest.filterMap (fun it' =>
          if itemVariantGid it' ∈ sh.map Prod.fst then
            (if it'.quantity ≠ 1 then some (Intent.setQuantity it'.key 1) else none)
          else some (Intent.remove it'.key)) := by
        apply List.filterMap_congr
        intro x hx
        have hne : itemVariantGid x ≠ itemVariantGid it := fun he =>
          hgid.1 (he ▸ List.mem_map_of_mem itemVariantGid hx)
        have hkeq : (itemVariantGid x ∈ (eraseKey sh (itemVariantGid it)).map Prod.fst)
            ↔ (itemVariantGid x ∈ sh.map Prod.fst) := by
          rw [eraseKey_eq_filter _ _ hsh]
          constructor
          · intro hm
            rcases List.mem_map.mp hm with ⟨e, he, hee⟩
            exact hee ▸ List.mem_map_of_mem Prod.fst (List.mem_of_mem_filter he)
          · intro hm
            rcases List.mem_map.mp hm with ⟨e, he, hee⟩
            refine hee ▸ List.mem_map_of_mem Prod.fst (List.mem_filter.mpr ⟨he, ?_⟩)
            rw [hee]
            simp [hne]
        by_cases hgx : itemVariantGid x ∈ sh.map Prod.fst
        · rw [if_pos hgx, if_pos (hkeq.mpr hgx)]
        · rw [if_neg hgx, if_neg (fun hcon => hgx (hkeq.mp hcon))]
      by_cases hq : it.quantity = 1
      · simp only [reconcileManaged, hc, if_true, hq, ne_eq, not_true_eq_false,
          if_false, List.filterMap_cons, hmem, if_pos]
        rw [ihe, hsame]
      · simp only [reconcileManaged, hc, if_true, hq, ne_eq, not_false_eq_true,
          if_true, List.filterMap_cons, hmem, if_pos]
        rw [ihe, hsame]
    · have hc' : containsKey sh (itemVariantGid it) = false := Bool.eq_false_iff.mpr hc
      have hnmem : itemVariantGid it ∉ sh.map Prod.fst := fun hm =>
        hc ((containsKey_iff _ _).mpr hm)
      simp only [reconcileManaged, hc', Bool.false_eq_true, if_false,
        List.filterMap_cons, hnmem, if_neg]
      rw [ih sh hgid.2 hsh]

theorem remove_mem_is1_iff (rules : List AutoAddRule) (cart : Cart) (it : Item)
    (hkeys : (cart.items.map (·.key)).Nodup)
    (hgids : ((autoAddedItems cart).map itemVariantGid).Nodup)
    (hmem : it ∈ cart.items) :
    (Intent.remove it.key ∈
        (reconcileManaged (autoAddedItems cart) (shouldHaveVariants rules cart)).1) ↔
      (it.auto_added = true ∧
        itemVariantGid it ∉ (shouldHaveVariants rules cart).map Prod.fst) := by
  rw [reconcileManaged_fst_char _ _ hgids (shouldHave_keys_nodup rules cart)]
  constructor
  · intro hm
    rcases List.mem_filterMap.mp hm with ⟨a, ha, hda⟩
    have hamem : a ∈ cart.items := List.mem_of_mem_filter ha
    have hauto : a.auto_added = true := List.of_mem_filter ha
    by_cases hin : itemVariantGid a ∈ (shouldHaveVariants rules cart).map Prod.fst
    · rw [if_pos hin] at hda
      by_cases hq : a.quantity = 1
      · rw [if_neg (by simpa using hq)] at hda
        exact absurd hda (by simp)
      · rw [if_pos (by simpa using hq)] at hda
        exact absurd (Option.some.inj hda) (by simp)
    · rw [if_neg hin] at hda
      have hkey : a.key = it.key := Intent.remove.inj (Option.some.inj hda)
      have : a = it := List.inj_on_of_nodup_map hkeys hamem hmem hkey
      subst this
      exact ⟨hauto, hin⟩
  · rintro ⟨hauto, hnin⟩
    apply List.mem_filterMap.mpr
    refine ⟨it, List.mem_filter.mpr ⟨hmem, hauto⟩, ?_⟩
    rw [if_neg hnin]

theorem setq_mem_is1_iff (rules : List AutoAddRule) (cart : Cart) (it : Item)
    (hkeys : (cart.items.map (·.key)).Nodup)
    (hgids : ((autoAddedItems cart).map itemVariantGid).Nodup)
    (hmem : it ∈ cart.items) :
    (Intent.setQuantity it.key 1 ∈
        (reconcileManaged (autoAddedItems cart) (shouldHaveVariants rules cart)).1) ↔
      (it.auto_added = true ∧
        itemVariantGid it ∈ (shouldHaveVariants rules cart).map Prod.fst ∧
        it.quantity ≠ 1) := by
  rw [reconcileManaged_fst_char _ _ hgids (shouldHave_keys_nodup rules cart)]
  constructor
  · intro hm
    rcases List.mem_filterMap.mp hm with ⟨a, ha, hda⟩
    have hamem : a ∈ cart.items := List.mem_of_mem_filter ha
    have hauto : a.auto_added = true := List.of_mem_filter ha
    by_cases hin : itemVariantGid a ∈ (shouldHaveVariants rules cart).map Prod.fst
    · rw [if_pos hin] at hda
      by_cases hq : a.quantity = 1
      · rw [if_neg (by simpa using hq)] at hda
        exact absurd hda (by simp)
      · rw [if_pos (by simpa using hq)] at hda
        have hkey : a.key = it.key := (Intent.setQuantity.inj (Option.some.inj hda)).1
        have : a = it := List.inj_on_of_nodup_map hkeys hamem hmem hkey
        subst this
        exact ⟨hauto, hin, hq⟩
    · rw [if_neg hin] at hda
      exact absurd (Option.some.inj hda) (by simp)
  · rintro ⟨hauto, hin, hq⟩
    apply List.mem_filterMap.mpr
    refine ⟨it, List.mem_filter.mpr ⟨hmem, hauto⟩, ?_⟩
    rw [if_pos hin, if_pos (by simpa using hq)]

theorem filterMap_keep_manual (f : Item → Option Item)
    (hmanual : ∀ a, a.auto_added = false → f a = some a)
    (hpres : ∀ a b, f a = some b → b.auto_added = a.auto_added) :
    ∀ (l : List Item),
    (l.filterMap f).filter (fun it => !it.auto_added) =
      l.filter (fun it => !it.auto_added) := by
  intro l
  induction l with
  | nil => rfl
  | cons a rest ih =>
    by_cases hauto : a.auto_added = true
    · cases hf : f a with
      | none =>
        rw [List.filterMap_cons, hf, List.filter_cons]
        simp only [hauto, Bool.not_true, Bool.false_eq_true, if_false]
        exact ih
      | some b =>
        have hb : b.auto_added = true := (hpres a b hf).symm ▸ hauto
        rw [List.filterMap_cons, hf, List.filter_cons, List.filter_cons]
        simp only [hauto, hb, Bool.not_true, Bool.false_eq_true, if_false]
        exact ih
    · have hauto' : a.auto_added = false := Bool.eq_false_iff.mpr hauto
      rw [List.filterMap_cons, hmanual a hauto', List.filter_cons, List.filter_cons]
      simp only [hauto', Bool.not_false, if_true]
      rw [ih]

theorem filter_auto_gid_sublist (f : Item → Option Item)
    (hpres : ∀ a b, f a = some b →
      b.auto_added = a.auto_added ∧ itemVariantGid b = itemVariantGid a) :
    ∀ (l : List Item),
    (((l.filterMap f).filter (·.auto_added)).map itemVariantGid).Sublist
      ((l.filter (·.auto_added)).map itemVariantGid) := by
  intro l
  induction l with
  | nil => simp
  | cons a rest ih =>
    by_cases hauto : a.auto_added = true
    · cases hf : f a with
      | none =>
        rw [List.filterMap_cons, hf, List.filter_cons]
        simp only [hauto, if_true, List.map_cons]
        exact ih.cons _
      | some b =>
        have hb : b.auto_added = true := (hpres a b hf).1.symm ▸ hauto
        rw [List.filterMap_cons, hf, List.filter_cons, List.filter_cons]
        simp only [hauto, hb, if_true, List.map_cons, (hpres a b hf).2]
        exact ih.cons₂ _
    · have hauto' : a.auto_added = false := Bool.eq_false_iff.mpr hauto
      cases hf : f a with
      | none =>
        rw [List.filterMap_cons, hf, List.filter_cons]
        simp only [hauto', Bool.false_eq_true, if_false]
        exact ih
      | some b =>
        have hb : b.auto_added = false := (hpres a b hf).1.symm ▸ hauto'
        rw [List.filterMap_cons, hf, List.filter_cons, List.filter_cons]
        simp only [hauto', hb, Bool.false_eq_true, if_false]
        exact ih

theorem filterMap_fst_sublist (f : (String × AutoAddRule) → Option String) :
    ∀ (l : List (String × AutoAddRule)),
    (∀ e ∈ l, f e = none ∨ f e = some e.1) →
    (l.filterMap f).Sublist (l.map Prod.fst) := by
  intro l
  induction l with
  | nil => intro _; simp
  | cons e rest ih =>
    intro hf
    have hrest := fun x hx => hf x (List.mem_cons_of_mem e hx)
    rcases hf e (List.mem_cons_self e rest) with h | h
    · rw [List.filterMap_cons, h, List.map_cons]
      exact (ih hrest).cons _
    · rw [List.filterMap_cons, h, List.map_cons]
      exact (ih hrest).cons₂ _

theorem kept_items_char (rules : List AutoAddRule) (cart : Cart) (cat : Catalog)
    (hkeys : (cart.items.map (·.key)).Nodup)
    (hgids : ((autoAddedItems cart).map itemVariantGid).Nodup) :
    (applyIntents cat cart
        (reconcileManaged (autoAddedItems cart) (shouldHaveVariants rules cart)).1).items =
      cart.items.filterMap (fun it =>
        if it.auto_added = true then
          (if itemVariantGid it ∈ (shouldHaveVariants rules cart).map Prod.fst then
            some (if it.quantity ≠ 1 then { it with quantity := 1 } else it)
          else none)
        else some it) := by
  have hshape : ∀ i ∈
      (reconcileManaged (autoAddedItems cart) (shouldHaveVariants rules cart)).1,
      (∃ k, i = Intent.remove k) ∨ (∃ k, i = Intent.setQuantity k 1) := by
    intro i hi
    rcases reconcileManaged_fst_mem _ _ i hi with ⟨a, _, he⟩ | ⟨a, _, _, he⟩
    · exact Or.inl ⟨a.key, he⟩
    · exact Or.inr ⟨a.key, he⟩
  have htnd : (((reconcileManaged (autoAddedItems cart)
      (shouldHaveVariants rules cart)).1).filterMap targetKey).Nodup := by
    have hkn : ((autoAddedItems cart).map (·.key)).Nodup :=
      hkeys.sublist ((List.filter_sublist _).map _)
    exact hkn.sublist (reconcileManaged_targets_sublist _ _)
  rw [applyIntents_rm_set cat _ cart hshape htnd]
  apply List.filterMap_congr
  intro it hit
  by_cases hauto : it.auto_added = true
  · by_cases hin : itemVariantGid it ∈ (shouldHaveVariants rules cart).map Prod.fst
    · have hrm : Intent.remove it.key ∉
          (reconcileManaged (autoAddedItems cart) (shouldHaveVariants rules cart)).1 := by
        rw [remove_mem_is1_iff rules cart it hkeys hgids hit]
        rintro ⟨_, hno⟩
        exact hno hin
      by_cases hq : it.quantity = 1
      · have hsq : Intent.setQuantity it.key 1 ∉
            (reconcileManaged (autoAddedItems cart) (shouldHaveVariants rules cart)).1 := by
          rw [setq_mem_is1_iff rules cart it hkeys hgids hit]
          rintro ⟨_, _, hq1⟩
          exact hq1 hq
        rw [if_neg hrm, if_neg hsq, if_pos hauto, if_pos hin,
          if_neg (by simpa using hq)]
      · have hsq : Intent.setQuantity it.key 1 ∈
            (reconcileManaged (autoAddedItems cart) (shouldHaveVariants rules cart)).1 :=
          (setq_mem_is1_iff rules cart it hkeys hgids hit).mpr ⟨hauto, hin, hq⟩
        rw [if_neg hrm, if_pos hsq, if_pos hauto, if_pos hin,
          if_pos (by simpa using hq)]
    · have hrm : Intent.remove it.key ∈
          (reconcileManaged (autoAddedItems cart) (shouldHaveVariants rules cart)).1 :=
        (remove_mem_is1_iff rules cart it hkeys hgids hit).mpr ⟨hauto, hin⟩
      rw [if_pos hrm, if_pos hauto, if_neg hin]
  · have hauto' : it.auto_added = false := Bool.eq_false_iff.mpr hauto
    have hrm : Intent.remove it.key ∉
        (reconcileManaged (autoAddedItems cart) (shouldHaveVariants rules cart)).1 := by
      rw [remove_mem_is1_iff rules cart it hkeys hgids hit]
      rintro ⟨ha, _⟩
      rw [hauto'] at ha
      exact Bool.false_ne_true ha
    have hsq : Intent.setQuantity it.key 1 ∉
        (reconcileManaged (autoAddedItems cart) (shouldHaveVariants rules cart)).1 := by
      rw [setq_mem_is1_iff rules cart it hkeys hgids hit]
      rintro ⟨ha, _, _⟩
      rw [hauto'] at ha
      exact Bool.false_ne_true ha
    rw [if_neg hrm, if_neg hsq, if_neg hauto]

/-- Claim C1 (amended): idempotence of the evaluation cycle holds for
well-formed carts (distinct line keys, at most one engine-managed line per
variant) and canonical rule target GIDs, provided applying the emitted
intents leaves the cart's total price unchanged (e.g. every gift is free).
Under these hypotheses, running `processCart` on the cart obtained by fully
applying the first cycle's intents emits no intent.  Without the
price-neutrality proviso the property fails, see
`processCart_not_idempotent`. -/
theorem processCart_second_cycle_empty
    (rules : List AutoAddRule) (cart : Cart) (cat : Catalog)
    (hkeys : (cart.items.map (·.key)).Nodup)
    (hgids : ((autoAddedItems cart).map itemVariantGid).Nodup)
    (hwf : ∀ r ∈ rules, ∃ s, r.action.addVariantId = variantGidRoot ++ s)
    (htotal : totalPrice (applyIntents cat cart (processCart rules cart)) =
      totalPrice cart) :
    processCart rules (applyIntents cat cart (processCart rules cart)) = [] := by
  have hSHnd := shouldHave_keys_nodup rules cart
  have hSHwf : ∀ v ∈ (shouldHaveVariants rules cart).map Prod.fst,
      ∃ s, v = variantGidRoot ++ s := by
    intro v hv
    rcases shouldHave_keys_wf rules cart v hv with ⟨r, hr, hvr⟩
    rcases hwf r hr with ⟨s, hs⟩
    exact ⟨s, hvr.trans hs⟩
  have hsh' := reconcileManaged_snd (autoAddedItems cart)
    (shouldHaveVariants rules cart) hSHnd
  have hsh'mem : ∀ e ∈ (reconcileManaged (autoAddedItems cart)
      (shouldHaveVariants rules cart)).2,
      e ∈ shouldHaveVariants rules cart ∧
        e.1 ∉ (autoAddedItems cart).map itemVariantGid := by
    intro e he
    rw [hsh'] at he
    have hmf := List.mem_filter.mp he
    exact ⟨hmf.1, of_decide_eq_true hmf.2⟩
  have hsh'wf : ∀ e ∈ (reconcileManaged (autoAddedItems cart)
      (shouldHaveVariants rules cart)).2, ∃ s, e.1 = variantGidRoot ++ s :=
    fun e he => hSHwf e.1 (List.mem_map_of_mem Prod.fst (hsh'mem e he).1)
  have hsh'na : ∀ e ∈ (reconcileManaged (autoAddedItems cart)
      (shouldHaveVariants rules cart)).2,
      e.1 ∉ (autoAddedItems cart).map itemVariantGid :=
    fun e he => (hsh'mem e he).2
  have his2 := reconcileMissing_char cart (reconcileManaged (autoAddedItems cart)
    (shouldHaveVariants rules cart)).2 hsh'wf hsh'na
  have his2adds : ∀ i ∈ reconcileMissing cart (reconcileManaged (autoAddedItems cart)
      (shouldHaveVariants rules cart)).2, ∃ v, i = Intent.add v 1 := by
    intro i hi
    rw [his2] at hi
    rcases List.mem_filterMap.mp hi with ⟨e, _, hde⟩
    cases hf : cart.items.find? (fun it => it.variant_id == stripVariantGid e.1) with
    | none =>
      rw [hf] at hde
      exact ⟨e.1, (Option.some.inj hde).symm⟩
    | some m =>
      rw [hf] at hde
      exact absurd hde (by simp)
  have hcart0 : processCart rules cart =
      (reconcileManaged (autoAddedItems cart) (shouldHaveVariants rules cart)).1 ++
        reconcileMissing cart (reconcileManaged (autoAddedItems cart)
          (shouldHaveVariants rules cart)).2 := rfl
  have hkept := kept_items_char rules cart cat hkeys hgids
  have hadds := applyIntents_adds cat (reconcileMissing cart
      (reconcileManaged (autoAddedItems cart) (shouldHaveVariants rules cart)).2)
    (applyIntents cat cart (reconcileManaged (autoAddedItems cart)
      (shouldHaveVariants rules cart)).1) his2adds
  have hcartitems : (applyIntents cat cart (processCart rules cart)).items =
      cart.items.filterMap (fun it =>
        if it.auto_added = true then
          (if itemVariantGid it ∈ (shouldHaveVariants rules cart).map Prod.fst then
            some (if it.quantity ≠ 1 then { it with quantity := 1 } else it)
          else none)
        else some it) ++
      (reconcileMissing cart (reconcileManaged (autoAddedItems cart)
        (shouldHaveVariants rules cart)).2).filterMap (fun i =>
          match i with
          | Intent.add v q => some (mkAddedItem cat v q)
          | _ => none) := by
    rw [hcart0, applyIntents_append, hadds, hkept]
  have haddfacts : ∀ b ∈ (reconcileMissing cart (reconcileManaged (autoAddedItems cart)
      (shouldHaveVariants rules cart)).2).filterMap (fun i =>
        match i with
        | Intent.add v q => some (mkAddedItem cat v q)
        | _ => none),
      ∃ v, v ∈ ((reconcileManaged (autoAddedItems cart)
          (shouldHaveVariants rules cart)).2).map Prod.fst ∧
        b = mkAddedItem cat v 1 ∧
        cart.items.find? (fun it => it.variant_id == stripVariantGid v) = none := by
    intro b hb
    rcases List.mem_filterMap.mp hb with ⟨i, hi, hmb⟩
    rw [his2] at hi
    rcases List.mem_filterMap.mp hi with ⟨e, he, hde⟩
    cases hf : cart.items.find? (fun it => it.variant_id == stripVariantGid e.1) with
    | none =>
      rw [hf] at hde
      have hie : i = Intent.add e.1 1 := (Option.some.inj hde).symm
      subst hie
      have hbe : b = mkAddedItem cat e.1 1 := by
        have := hmb
        simp only at this
        exact (Option.some.inj this).symm
      exact ⟨e.1, List.mem_map_of_mem Prod.fst he, hbe, hf⟩
    | some m =>
      rw [hf] at hde
      exact absurd hde (by simp)
  have hgidadd : ∀ v, (∃ s, v = variantGidRoot ++ s) →
      itemVariantGid (mkAddedItem cat v 1) = v := by
    rintro v ⟨s, rfl⟩
    show variantGidRoot ++ stripVariantGid (variantGidRoot ++ s) = variantGidRoot ++ s
    rw [stripVariantGid_append]
  have hpres3 : ∀ (a b : Item), (if a.auto_added = true then
        (if itemVariantGid a ∈ (shouldHaveVariants rules cart).map Prod.fst then
          some (if a.quantity ≠ 1 then { a with quantity := 1 } else a)
        else none)
      else some a) = some b →
      b.auto_added = a.auto_added ∧ itemVariantGid b = itemVariantGid a := by
    intro a b hab
    by_cases hia : a.auto_added = true
    · rw [if_pos hia] at hab
      by_cases hin : itemVariantGid a ∈ (shouldHaveVariants rules cart).map Prod.fst
      · rw [if_pos hin] at hab
        have heq := Option.some.inj hab
        by_cases hq : a.quantity = 1
        · rw [if_neg (by simpa using hq)] at heq
          rw [← heq]
          exact ⟨rfl, rfl⟩
        · rw [if_pos (by simpa using hq)] at heq
          rw [← heq]
          exact ⟨rfl, rfl⟩
      · rw [if_neg hin] at hab
        exact absurd hab (by simp)
    · rw [if_neg hia] at hab
      rw [← Option.some.inj hab]
      exact ⟨rfl, rfl⟩
  have hP1 : ∀ it' ∈ (applyIntents cat cart (processCart rules cart)).items,
      it'.auto_added = true →
      itemVariantGid it' ∈ (shouldHaveVariants rules cart).map Prod.fst ∧
        it'.quantity = 1 := by
    intro it' hit' hauto'
    rw [hcartitems] at hit'
    rcases List.mem_append.mp hit' with hk | ha
    · rcases List.mem_filterMap.mp hk with ⟨it, hit, hdit⟩
      by_cases hia : it.auto_added = true
      · rw [if_pos hia] at hdit
        by_cases hin : itemVariantGid it ∈ (shouldHaveVariants rules cart).map Prod.fst
        · rw [if_pos hin] at hdit
          have heq := Option.some.inj hdit
          by_cases hq : it.quantity = 1
          · rw [if_neg (by simpa using hq)] at heq
            rw [← heq]
            exact ⟨hin, hq⟩
          · rw [if_pos (by simpa using hq)] at heq
            rw [← heq]
            exact ⟨hin, rfl⟩
        · rw [if_neg hin] at hdit
          exact absurd hdit (by simp)
      · rw [if_neg hia] at hdit
        have heq := Option.some.inj hdit
        rw [← heq] at hauto'
        have hia' : it.auto_added = false := Bool.eq_false_iff.mpr hia
        rw [hia'] at hauto'
        exact absurd hauto' (by simp)
    · rcases haddfacts it' ha with ⟨v, hv, hbe, _⟩
      have hvSH : v ∈ (shouldHaveVariants rules cart).map Prod.fst := by
        rcases List.mem_map.mp hv with ⟨e, he, hev⟩
        exact hev ▸ List.mem_map_of_mem Prod.fst (hsh'mem e he).1
      have hvwf : ∃ s, v = variantGidRoot ++ s := hSHwf v hvSH
      constructor
      · rw [hbe, hgidadd v hvwf]
        exact hvSH
      · rw [hbe]
        rfl
  have hP2 : ((autoAddedItems (applyIntents cat cart
      (processCart rules cart))).map itemVariantGid).Nodup := by
    show ((((applyIntents cat cart (processCart rules cart)).items).filter
      (·.auto_added)).map itemVariantGid).Nodup
    rw [hcartitems, List.filter_append, List.map_append]
    have hallauto : ((reconcileMissing cart (reconcileManaged (autoAddedItems cart)
        (shouldHaveVariants rules cart)).2).filterMap (fun i =>
          match i with
          | Intent.add v q => some (mkAddedItem cat v q)
          | _ => none)).filter (·.auto_added) =
        (reconcileMissing cart (reconcileManaged (autoAddedItems cart)
          (shouldHaveVariants rules cart)).2).filterMap (fun i =>
            match i with
            | Intent.add v q => some (mkAddedItem cat v q)
            | _ => none) := by
      rw [List.filter_eq_self]
      intro b hb
      rcases haddfacts b hb with ⟨v, _, hbe, _⟩
      rw [hbe]
      rfl
    rw [hallauto]
    have hgadded : ∀ b ∈ (reconcileMissing cart (reconcileManaged (autoAddedItems cart)
        (shouldHaveVariants rules cart)).2).filterMap (fun i =>
          match i with
          | Intent.add v q => some (mkAddedItem cat v q)
          | _ => none),
        itemVariantGid b ∈ ((reconcileManaged (autoAddedItems cart)
          (shouldHaveVariants rules cart)).2).map Prod.fst := by
      intro b hb
      rcases haddfacts b hb with ⟨v, hv, hbe, _⟩
      have hvSH : v ∈ (shouldHaveVariants rules cart).map Prod.fst := by
        rcases List.mem_map.mp hv with ⟨e, he, hev⟩
        exact hev ▸ List.mem_map_of_mem Prod.fst (hsh'mem e he).1
      rw [hbe, hgidadd v (hSHwf v hvSH)]
      exact hv
    apply List.Nodup.append
    · exact hgids.sublist (filter_auto_gid_sublist _ hpres3 cart.items)
    · have hsub : (((reconcileMissing cart (reconcileManaged (autoAddedItems cart)
          (shouldHaveVariants rules cart)).2).filterMap (fun i =>
            match i with
            | Intent.add v q => some (mkAddedItem cat v q)
            | _ => none)).map itemVariantGid).Sublist
          (((reconcileManaged (autoAddedItems cart)
            (shouldHaveVariants rules cart)).2).map Prod.fst) := by
        rw [his2, List.map_filterMap, List.filterMap_filterMap]
        apply filterMap_fst_sublist
        intro e he
        cases hf : cart.items.find?
            (fun it => it.variant_id == stripVariantGid e.1) with
        | none =>
          right
          simp only [hf]
          show some (itemVariantGid (mkAddedItem cat e.1 1)) = some e.1
          rw [hgidadd e.1 (hsh'wf e he)]
        | some m =>
          left
          simp [hf]
      have hkeysnd : (((reconcileManaged (autoAddedItems cart)
          (shouldHaveVariants rules cart)).2).map Prod.fst).Nodup := by
        rw [hsh']
        exact hSHnd.sublist ((List.filter_sublist _).map Prod.fst)
      exact hkeysnd.sublist hsub
    · intro a ha1 ha2
      have haauto : a ∈ ((autoAddedItems cart).map itemVariantGid) :=
        (filter_auto_gid_sublist _ hpres3 cart.items).subset ha1
      rcases List.mem_map.mp ha2 with ⟨b, hb, hgb⟩
      have := hgadded b hb
      rw [hgb] at this
      rcases List.mem_map.mp this with ⟨e, he, hev⟩
      exact (hsh'na e he) (hev ▸ haauto)
  have hP3 : ∀ v ∈ (shouldHaveVariants rules cart).map Prod.fst,
      v ∉ (autoAddedItems (applyIntents cat cart
        (processCart rules cart))).map itemVariantGid →
      ∃ it' ∈ (applyIntents cat cart (processCart rules cart)).items,
        it'.auto_added = false ∧ it'.variant_id = stripVariantGid v := by
    intro v hv hnv
    by_cases hvin : v ∈ (autoAddedItems cart).map itemVariantGid
    · exfalso
      rcases List.mem_map.mp hvin with ⟨a, ha, hga⟩
      have haauto : a.auto_added = true := List.of_mem_filter ha
      have hamem : a ∈ cart.items := List.mem_of_mem_filter ha
      have hin' : itemVariantGid a ∈ (shouldHaveVariants rules cart).map Prod.fst :=
        hga ▸ hv
      have hd : (if a.auto_added = true then
          (if itemVariantGid a ∈ (shouldHaveVariants rules cart).map Prod.fst then
            some (if a.quantity ≠ 1 then { a with quantity := 1 } else a)
          else none)
        else some a) =
          some (if a.quantity ≠ 1 then { a with quantity := 1 } else a) := by
        rw [if_pos haauto, if_pos hin']
      have ha'' : (if a.quantity ≠ 1 then { a with quantity := 1 } else a) ∈
          (applyIntents cat cart (processCart rules cart)).items := by
        rw [hcartitems]
        exact List.mem_append_left _ (List.mem_filterMap.mpr ⟨a, hamem, hd⟩)
      have ha''pres := hpres3 a _ hd
      apply hnv
      rw [← hga, ← ha''pres.2]
      refine List.mem_map_of_mem itemVariantGid (List.mem_filter.mpr ⟨ha'', ?_⟩)
      rw [ha''pres.1]
      exact haauto
    · rcases List.mem_map.mp hv with ⟨e, he, hev⟩
      have hesh' : e ∈ (reconcileManaged (autoAddedItems cart)
          (shouldHaveVariants rules cart)).2 := by
        rw [hsh']
        refine List.mem_filter.mpr ⟨he, ?_⟩
        rw [decide_eq_true_eq, hev]
        exact hvin
      cases hf : cart.items.find?
          (fun it => it.variant_id == stripVariantGid e.1) with
      | none =>
        exfalso
        have hi2 : Intent.add e.1 1 ∈ reconcileMissing cart
            (reconcileManaged (autoAddedItems cart)
              (shouldHaveVariants rules cart)).2 := by
          rw [his2]
          refine List.mem_filterMap.mpr ⟨e, hesh', ?_⟩
          rw [hf]
        have hbmem : mkAddedItem cat e.1 1 ∈ (reconcileMissing cart
            (reconcileManaged (autoAddedItems cart)
              (shouldHaveVariants rules cart)).2).filterMap (fun i =>
                match i with
                | Intent.add v q => some (mkAddedItem cat v q)
                | _ => none) :=
          List.mem_filterMap.mpr ⟨Intent.add e.1 1, hi2, rfl⟩
        have hbcart : mkAddedItem cat e.1 1 ∈
            (applyIntents cat cart (processCart rules cart)).items := by
          rw [hcartitems]
          exact List.mem_append_right _ hbmem
        apply hnv
        rw [← hev, ← hgidadd e.1 (hsh'wf e hesh')]
        exact List.mem_map_of_mem itemVariantGid (List.mem_filter.mpr ⟨hbcart, rfl⟩)
      | some m =>
        have hmmem : m ∈ cart.items := List.mem_of_find?_eq_some hf
        have hm_pred := List.find?_some hf
        have hmvar : m.variant_id = stripVariantGid e.1 := by simpa using hm_pred
        have hmman : m.auto_added = false := by
          by_contra hma
          have hma' : m.auto_added = true := Bool.not_eq_false _ |>.mp hma
          apply hvin
          have hgm : itemVariantGid m = v := by
            unfold itemVariantGid
            rcases hsh'wf e hesh' with ⟨s, hs⟩
            rw [hmvar, hs, stripVariantGid_append, ← hs, hev]
          rw [← hgm]
          exact List.mem_map_of_mem itemVariantGid
            (List.mem_filter.mpr ⟨hmmem, hma'⟩)
        have hdm : (if m.auto_added = true then
            (if itemVariantGid m ∈ (shouldHaveVariants rules cart).map Prod.fst then
              some (if m.quantity ≠ 1 then { m with quantity := 1 } else m)
            else none)
          else some m) = some m := by
          rw [if_neg (by rw [hmman]; simp)]
        have hmcart : m ∈ (applyIntents cat cart (processCart rules cart)).items := by
          rw [hcartitems]
          exact List.mem_append_left _ (List.mem_filterMap.mpr ⟨m, hmmem, hdm⟩)
        refine ⟨m, hmcart, hmman, ?_⟩
        rw [hmvar, hev]
  have hman : manualItems (applyIntents cat cart (processCart rules cart)) =
      manualItems cart := by
    show ((applyIntents cat cart (processCart rules cart)).items).filter
        (fun it => !it.auto_added) =
      cart.items.filter (fun it => !it.auto_added)
    rw [hcartitems, List.filter_append]
    have h2 : ((reconcileMissing cart (reconcileManaged (autoAddedItems cart)
        (shouldHaveVariants rules cart)).2).filterMap (fun i =>
          match i with
          | Intent.add v q => some (mkAddedItem cat v q)
          | _ => none)).filter (fun it => !it.auto_added) = [] := by
      rw [List.filter_eq_nil_iff]
      intro b hb
      rcases haddfacts b hb with ⟨v, _, hbe, _⟩
      rw [hbe]
      simp [mkAddedItem]
    rw [h2, List.append_nil]
    exact filterMap_keep_manual _
      (fun a ha => by rw [if_neg (by rw [ha]; simp)])
      (fun a b hab => (hpres3 a b hab).1) cart.items
  have heval : ∀ r ∈ rules, evaluateRule r (applyIntents cat cart
      (processCart rules cart)) = evaluateRule r cart :=
    fun r _ => evaluateRule_congr r _ cart hman htotal
  have hSH2 : shouldHaveVariants rules (applyIntents cat cart
      (processCart rules cart)) = shouldHaveVariants rules cart :=
    shouldHave_congr rules _ cart heval
  show (reconcileManaged (autoAddedItems (applyIntents cat cart
        (processCart rules cart)))
      (shouldHaveVariants rules (applyIntents cat cart (processCart rules cart)))).1 ++
    reconcileMissing (applyIntents cat cart (processCart rules cart))
      (reconcileManaged (autoAddedItems (applyIntents cat cart
          (processCart rules cart)))
        (shouldHaveVariants rules (applyIntents cat cart
          (processCart rules cart)))).2 = []
  rw [hSH2]
  have h1nil : (reconcileManaged (autoAddedItems (applyIntents cat cart
      (processCart rules cart))) (shouldHaveVariants rules cart)).1 = [] := by
    rw [reconcileManaged_fst_char _ _ hP2 hSHnd, List.filterMap_eq_nil_iff]
    intro a ha
    have hamem : a ∈ (applyIntents cat cart (processCart rules cart)).items :=
      List.mem_of_mem_filter ha
    have haauto : a.auto_added = true := List.of_mem_filter ha
    rcases hP1 a hamem haauto with ⟨hin, hq⟩
    rw [if_pos hin, if_neg (by simpa using hq)]
  have hsh2 := reconcileManaged_snd (autoAddedItems (applyIntents cat cart
    (processCart rules cart))) (shouldHaveVariants rules cart) hSHnd
  have h2nil : reconcileMissing (applyIntents cat cart (processCart rules cart))
      (reconcileManaged (autoAddedItems (applyIntents cat cart
        (processCart rules cart))) (shouldHaveVariants rules cart)).2 = [] := by
    have hwf2 : ∀ e ∈ (reconcileManaged (autoAddedItems (applyIntents cat cart
        (processCart rules cart))) (shouldHaveVariants rules cart)).2,
        ∃ s, e.1 = variantGidRoot ++ s := by
      intro e he
      rw [hsh2] at he
      exact hSHwf e.1 (List.mem_map_of_mem Prod.fst (List.mem_filter.mp he).1)
    have hna2 : ∀ e ∈ (reconcileManaged (autoAddedItems (applyIntents cat cart
        (processCart rules cart))) (shouldHaveVariants rules cart)).2,
        e.1 ∉ (autoAddedItems (applyIntents cat cart
          (processCart rules cart))).map itemVariantGid := by
      intro e he
      rw [hsh2] at he
      exact of_decide_eq_true (List.mem_filter.mp he).2
    rw [reconcileMissing_char _ _ hwf2 hna2, List.filterMap_eq_nil_iff]
    intro e he
    have heSH : e ∈ shouldHaveVariants rules cart := by
      rw [hsh2] at he
      exact (List.mem_filter.mp he).1
    have hena : e.1 ∉ (autoAddedItems (applyIntents cat cart
        (processCart rules cart))).map itemVariantGid := by
      rw [hsh2] at he
      exact of_decide_eq_true (List.mem_filter.mp he).2
    rcases hP3 e.1 (List.mem_map_of_mem Prod.fst heSH) hena with
      ⟨it', hit', _, hvar'⟩
    cases hfx : (applyIntents cat cart (processCart rules cart)).items.find?
        (fun it => it.variant_id == stripVariantGid e.1) with
    | none =>
      exfalso
      have := List.find?_eq_none.mp hfx it' hit'
      apply this
      simp [hvar']
    | some m => rfl
  rw [h1nil, h2nil]
  rfl

/-- Claim C1 counterexample: the evaluation cycle is not idempotent as
stated.  With rules "total ≥ 30 adds gift 1 (price 25)" and "total ≥ 50
adds gift 2" on a cart of total 30, the first cycle adds gift 1; the
applied add raises the cart total to 55, so the second cycle emits another
add for gift 2 instead of the empty list. -/
theorem processCart_not_idempotent :
    processCart [ruleTotal30, ruleTotal50]
      (applyIntents pricedCatalog cartOneManual
        (processCart [ruleTotal30, ruleTotal50] cartOneManual)) ≠ [] := by
  decide

/-- Witness for the amended claim C1 at a concrete input: one free-gift rule
on a well-formed one-line cart, where applying the intents leaves the total
unchanged and the second cycle is empty. -/
theorem processCart_second_cycle_empty_witness :
    (cartManual2000.items.map (·.key)).Nodup ∧
    ((autoAddedItems cartManual2000).map itemVariantGid).Nodup ∧
    (∀ r ∈ [ruleFreeGift], ∃ s, r.action.addVariantId = variantGidRoot ++ s) ∧
    totalPrice (applyIntents freeCatalog cartManual2000
        (processCart [ruleFreeGift] cartManual2000)) = totalPrice cartManual2000 ∧
    processCart [ruleFreeGift] (applyIntents freeCatalog cartManual2000
      (processCart [ruleFreeGift] cartManual2000)) = [] := by
  have hwf : ∀ r ∈ [ruleFreeGift], ∃ s, r.action.addVariantId = variantGidRoot ++ s := by
    intro r hr
    rcases List.mem_singleton.mp hr with rfl
    exact ⟨"5", rfl⟩
  exact ⟨by decide, by decide, hwf, by decide,
    processCart_second_cycle_empty [ruleFreeGift] cartManual2000 freeCatalog
      (by decide) (by decide) hwf (by decide)⟩

/-- Claim C2 counterexample: the server-side `ruleApplies` of
`cart_transform_run.ts` sums all lines of the target product, including
engine-managed gift lines.  Appending an engine-added gift line of product 7
to a cart that satisfies `product_quantity_in_range{min:1,max:1}` makes the
rule stop matching, so the gift does move the counted quantity out of
range. -/
theorem ruleApplies_counts_engine_lines :
    serverGiftLine.autoAdded = true ∧
    inputWithGift.lines = inputNoGift.lines ++ [serverGiftLine] ∧
    ruleApplies triggerRule inputNoGift = true ∧
    ruleApplies triggerRule inputWithGift = false :=
  ⟨rfl, rfl, by decide, by decide⟩

/-- Claim C2 (amended): the storefront evaluator (`evaluateRule` in
`auto-add.js`) excludes engine-managed lines when summing a
`product_quantity_in_range` condition: appending an auto-added line to the
cart never changes the condition's result.  The server-side `ruleApplies`
violates the claim (see `ruleApplies_counts_engine_lines`) but is
unreachable, since `cartTransformRun` never invokes it. -/
theorem storefront_product_count_excludes_gift (cart : Cart) (g : Item)
    (hg : g.auto_added = true) (productId : String) (mn : Int) (mx : Option Int) :
    evalCondJS { items := cart.items ++ [g] }
        (Condition.product_quantity_in_range productId mn mx) =
      evalCondJS cart (Condition.product_quantity_in_range productId mn mx) := by
  have hq : ∀ t : String,
      manualProductQty t { items := cart.items ++ [g] } = manualProductQty t cart := by
    intro t
    unfold manualProductQty
    rw [List.filter_append]
    simp [hg]
  simp only [evalCondJS]
  rw [hq]

/-- Witness for the amended claim C2 at a concrete input: adding an
engine-managed gift line of product 7 leaves the condition's result
unchanged. -/
theorem storefront_product_count_excludes_gift_witness :
    giftItemOf7.auto_added = true ∧
    evalCondJS { items := cartManual7.items ++ [giftItemOf7] }
        (Condition.product_quantity_in_range "gid://shopify/Product/7" 1 (some 1)) =
      evalCondJS cartManual7
        (Condition.product_quantity_in_range "gid://shopify/Product/7" 1 (some 1)) :=
  ⟨rfl, storefront_product_count_excludes_gift cartManual7 giftItemOf7 rfl
    "gid://shopify/Product/7" 1 (some 1)⟩

/-- Claim C3 counterexample: the reconciler ignores `action.quantity`.  A
matching rule requesting quantity 2 still makes `processCart` emit
`Add(variant, 1)`, not `Add(variant, 2)`. -/
theorem processCart_add_ignores_action_quantity :
    quantityRule.action.quantity = some 2 ∧
    processCart [quantityRule] emptyCart =
      [Intent.add (variantGidRoot ++ "77") 1] :=
  ⟨rfl, by decide⟩

/-- Claim C3 (amended): every `add` and every `setQuantity` intent emitted
by the storefront reconciler carries quantity exactly 1, regardless of the
matching rule's `action.quantity`: the storefront hard-codes gift quantity
1 (`addToCart(variantGid, 1)` and the two quantity resets in
`processCart`). -/
theorem processCart_intent_quantity_one (rules : List AutoAddRule) (cart : Cart)
    (i : Intent) (hi : i ∈ processCart rules cart) :
    (∀ v q, i = Intent.add v q → q = 1) ∧
    (∀ k q, i = Intent.setQuantity k q → q = 1) := by
  have hi2 : i ∈ (reconcileManaged (autoAddedItems cart)
      (shouldHaveVariants rules cart)).1 ++
    reconcileMissing cart (reconcileManaged (autoAddedItems cart)
      (shouldHaveVariants rules cart)).2 := hi
  rcases List.mem_append.mp hi2 with h1 | h2
  · rcases reconcileManaged_fst_mem _ _ i h1 with ⟨a, _, rfl⟩ | ⟨a, _, _, rfl⟩
    · refine ⟨?_, ?_⟩
      · intro v q he
        exact absurd he (by simp)
      · intro k q he
        exact absurd he (by simp)
    · refine ⟨?_, ?_⟩
      · intro v q he
        exact absurd he (by simp)
      · intro k q he
        exact ((Intent.setQuantity.inj he).2).symm
  · rcases reconcileMissing_mem cart _ i h2 with ⟨v, _, rfl, _⟩ | ⟨a, _, _, _, rfl⟩
    · refine ⟨?_, ?_⟩
      · intro v' q he
        exact ((Intent.add.inj he).2).symm
      · intro k q he
        exact absurd he (by simp)
    · refine ⟨?_, ?_⟩
      · intro v q he
        exact absurd he (by simp)
      · intro k q he
        exact ((Intent.setQuantity.inj he).2).symm

/-- Witness for the amended claim C3 at a concrete input: the emitted add
carries quantity 1. -/
theorem processCart_intent_quantity_one_witness :
    (Intent.add (variantGidRoot ++ "77") 1 ∈ processCart [quantityRule] emptyCart) ∧
    ((∀ v q, Intent.add (variantGidRoot ++ "77") 1 = Intent.add v q → q = 1) ∧
     (∀ k q, Intent.add (variantGidRoot ++ "77") 1 = Intent.setQuantity k q → q = 1)) :=
  ⟨by decide, processCart_intent_quantity_one [quantityRule] emptyCart _ (by decide)⟩

/-- Claim C4: the server-side cart-transform entry point returns the
`NO_CHANGES` result with an empty operations list on every input; the
transform never emits a cart mutation regardless of the rules. -/
theorem cartTransformRun_emits_no_operations (input : CartTransformRunInput) :
    (cartTransformRun input).operations = [] := rfl

/-- Claim C5 counterexample: the server-side `ruleApplies` returns `true`
(a vacuous match) for an active rule with an empty condition list — its
condition loop never runs and the function falls through to `return true`. -/
theorem ruleApplies_empty_conditions_matches :
    emptyCondRule.active = true ∧ emptyCondRule.conditions = [] ∧
    ruleApplies emptyCondRule emptyServerInput = true :=
  ⟨rfl, rfl, rfl⟩

/-- Claim C5 (amended): the storefront `evaluateRule` treats a rule with an
empty condition list as a non-match (returns `false`, not an error); the
server-side `ruleApplies` instead vacuously matches such a rule (see
`ruleApplies_empty_conditions_matches`), though it is unreachable since
`cartTransformRun` emits no operations. -/
theorem evaluateRule_empty_conditions_no_match (r : AutoAddRule) (cart : Cart)
    (h : r.conditions = []) : evaluateRule r cart = false := by
  unfold evaluateRule
  rw [h]
  rfl

/-- Witness for the amended claim C5 at a concrete input. -/
theorem evaluateRule_empty_conditions_no_match_witness :
    emptyCondRule.conditions = [] ∧
    evaluateRule emptyCondRule emptyCart = false :=
  ⟨rfl, evaluateRule_empty_conditions_no_match emptyCondRule emptyCart rfl⟩

/-- Claim C6: group exclusivity with first-match-wins.  If two active rules
share the non-empty group `g` and both independently match, then among the
rules with group `g` exactly one fires — the first matching one in rule-set
order — and its action variant is a key of the resolved `shouldHaveVariants`
mapping. -/
theorem group_exclusivity_first_match (rules : List AutoAddRule) (cart : Cart)
    (g : String) (l1 l2 l3 : List AutoAddRule) (a b : AutoAddRule)
    (hrules : rules = l1 ++ a :: (l2 ++ b :: l3))
    (hga : ruleGroup a = some g) (hgb : ruleGroup b = some g)
    (hactA : a.active = true) (hactB : b.active = true)
    (hmA : evaluateRule a cart = true) (hmB : evaluateRule b cart = true) :
    ∃ w, rules.find? (fun r => ruleGroup r == some g && evaluateRule r cart) = some w ∧
      (selectedRulesAux cart rules []).filter (fun r => ruleGroup r == some g) = [w] ∧
      w.action.addVariantId ∈ (shouldHaveVariants rules cart).map Prod.fst := by
  have hamem : a ∈ rules := by
    rw [hrules]
    exact List.mem_append_right _ (List.mem_cons_self _ _)
  have hex : ∃ x ∈ rules, (fun r => ruleGroup r == some g && evaluateRule r cart) x = true := by
    refine ⟨a, hamem, ?_⟩
    show (ruleGroup a == some g && evaluateRule a cart) = true
    rw [hga, hmA]
    simp
  have hiss : (rules.find? (fun r => ruleGroup r == some g && evaluateRule r cart)).isSome :=
    List.find?_isSome.mpr hex
  rcases Option.isSome_iff_exists.mp hiss with ⟨w, hw⟩
  have hfil : (selectedRulesAux cart rules []).filter
      (fun r => ruleGroup r == some g) = [w] := by
    rw [selectedRulesAux_filter_group_of_not_seen cart g rules [] (List.not_mem_nil g),
      hw]
    rfl
  refine ⟨w, hw, hfil, ?_⟩
  have hwsel : w ∈ selectedRulesAux cart rules [] := by
    have : w ∈ (selectedRulesAux cart rules []).filter
        (fun r => ruleGroup r == some g) := by
      rw [hfil]
      exact List.mem_singleton.mpr rfl
    exact List.mem_of_mem_filter this
  unfold shouldHaveVariants
  rw [resolveAux_eq_fold]
  exact mem_keys_foldl_mapSet _ _ w hwsel

/-- Witness for claim C6 at a concrete input: two rules of group `tier`,
both matching the empty cart; only the first fires. -/
theorem group_exclusivity_first_match_witness :
    ruleGroup groupRuleA = some "tier" ∧ ruleGroup groupRuleB = some "tier" ∧
    groupRuleA.active = true ∧ groupRuleB.active = true ∧
    evaluateRule groupRuleA emptyCart = true ∧
    evaluateRule groupRuleB emptyCart = true ∧
    ∃ w, [groupRuleA, groupRuleB].find?
        (fun r => ruleGroup r == some "tier" && evaluateRule r emptyCart) = some w ∧
      (selectedRulesAux emptyCart [groupRuleA, groupRuleB] []).filter
        (fun r => ruleGroup r == some "tier") = [w] ∧
      w.action.addVariantId ∈
        (shouldHaveVariants [groupRuleA, groupRuleB] emptyCart).map Prod.fst :=
  ⟨by decide, by decide, rfl, rfl, by decide, by decide,
    group_exclusivity_first_match [groupRuleA, groupRuleB] emptyCart "tier"
      [] [] [] groupRuleA groupRuleB rfl (by decide) (by decide) rfl rfl
      (by decide) (by decide)⟩

/-- Claim C7: manual-add non-interference.  A cart line whose variant
matches a should-have entry but is not engine-managed is never touched by
the reconciler: no remove or set-quantity intent addresses its key, and no
add intent duplicates its variant. -/
theorem manual_line_untouched (rules : List AutoAddRule) (cart : Cart) (line : Item)
    (hmem : line ∈ cart.items) (hman : line.auto_added = false)
    (hsh : (variantGidRoot ++ line.variant_id) ∈
      (shouldHaveVariants rules cart).map Prod.fst)
    (hkeys : (cart.items.map (·.key)).Nodup) :
    ∀ i ∈ processCart rules cart,
      i ≠ Intent.remove line.key ∧
      (∀ q, i ≠ Intent.setQuantity line.key q) ∧
      (∀ v q, i = Intent.add v q → stripVariantGid v ≠ line.variant_id) := by
  intro i hi
  have hkey_auto : ∀ (x : Item), x ∈ cart.items → x.auto_added = true →
      x.key ≠ line.key := by
    intro x hxmem hxauto hkeyeq
    have hx : x = line := List.inj_on_of_nodup_map hkeys hxmem hmem hkeyeq
    rw [hx, hman] at hxauto
    exact Bool.false_ne_true hxauto
  have hi2 : i ∈ (reconcileManaged (autoAddedItems cart)
      (shouldHaveVariants rules cart)).1 ++
    reconcileMissing cart (reconcileManaged (autoAddedItems cart)
      (shouldHaveVariants rules cart)).2 := hi
  rcases List.mem_append.mp hi2 with h1 | h2
  · rcases reconcileManaged_fst_mem _ _ i h1 with ⟨x, hx, rfl⟩ | ⟨x, hx, _, rfl⟩
    · have hxmem : x ∈ cart.items := List.mem_of_mem_filter hx
      have hxauto : x.auto_added = true := List.of_mem_filter hx
      refine ⟨?_, ?_, ?_⟩
      · intro he
        exact hkey_auto x hxmem hxauto (Intent.remove.inj he)
      · intro q he
        exact absurd he (by simp)
      · intro v q he
        exact absurd he (by simp)
    · have hxmem : x ∈ cart.items := List.mem_of_mem_filter hx
      have hxauto : x.auto_added = true := List.of_mem_filter hx
      refine ⟨?_, ?_, ?_⟩
      · intro he
        exact absurd he (by simp)
      · intro q he
        exact hkey_auto x hxmem hxauto ((Intent.setQuantity.inj he).1)
      · intro v q he
        exact absurd he (by simp)
  · rcases reconcileMissing_mem cart _ i h2 with ⟨v, _, rfl, hfind⟩ |
      ⟨x, hxmem, hxauto, _, rfl⟩
    · refine ⟨?_, ?_, ?_⟩
      · intro he
        exact absurd he (by simp)
      · intro q he
        exact absurd he (by simp)
      · intro v' q he
        have hvv : v = v' := (Intent.add.inj he).1
        intro hstrip
        have hnot := List.find?_eq_none.mp hfind line hmem
        apply hnot
        rw [← hvv] at hstrip
        simp [hstrip]
    · refine ⟨?_, ?_, ?_⟩
      · intro he
        exact absurd he (by simp)
      · intro q he
        exact hkey_auto x hxmem hxauto ((Intent.setQuantity.inj he).1)
      · intro v q he
        exact absurd he (by simp)

/-- Witness for claim C7 at a concrete input: a manually-added line of the
gift variant with quantity 3 receives no intent, although the rule's gift
variant matches it. -/
theorem manual_line_untouched_witness :
    manualGiftLine ∈ cartWithManualGift.items ∧
    manualGiftLine.auto_added = false ∧
    (variantGidRoot ++ manualGiftLine.variant_id) ∈
      (shouldHaveVariants [manualGiftRule] cartWithManualGift).map Prod.fst ∧
    (cartWithManualGift.items.map (·.key)).Nodup ∧
    ∀ i ∈ processCart [manualGiftRule] cartWithManualGift,
      i ≠ Intent.remove manualGiftLine.key ∧
      (∀ q, i ≠ Intent.setQuantity manualGiftLine.key q) ∧
      (∀ v q, i = Intent.add v q → stripVariantGid v ≠ manualGiftLine.variant_id) :=
  ⟨by decide, rfl, by decide, by decide,
    manual_line_untouched [manualGiftRule] cartWithManualGift manualGiftLine
      (by decide) rfl (by decide) (by decide)⟩

/-- Claim C8: a condition of unknown kind fails its rule in both evaluators:
the storefront `evaluateRule` and the server-side `ruleApplies` both return
`false` for any rule containing a condition whose kind is none of the known
tagged variants.  Both embeddings are total Lean functions, so no input
makes them throw. -/
theorem unknown_condition_kind_no_match (r : AutoAddRule) (cart : Cart)
    (input : CartTransformRunInput) (s : String)
    (h : Condition.unknown s ∈ r.conditions) :
    evaluateRule r cart = false ∧ ruleApplies r input = false := by
  have hallJS : r.conditions.all (evalCondJS cart) = false := by
    rw [List.all_eq_false]
    exact ⟨_, h, by simp [evalCondJS]⟩
  have hallTS : r.conditions.all (condHolds input) = false := by
    rw [List.all_eq_false]
    exact ⟨_, h, by simp [condHolds]⟩
  constructor
  · have hne : r.conditions.isEmpty = false := by
      cases hc : r.conditions with
      | nil => rw [hc] at h; exact absurd h (List.not_mem_nil _)
      | cons c cs => rfl
    unfold evaluateRule
    rw [hne, hallJS]
    rfl
  · unfold ruleApplies
    rw [hallTS, Bool.and_false]

/-- Witness for claim C8 at a concrete input. -/
theorem unknown_condition_kind_no_match_witness :
    Condition.unknown "mystery_kind" ∈ unknownCondRule.conditions ∧
    evaluateRule unknownCondRule emptyCart = false ∧
    ruleApplies unknownCondRule emptyServerInput = false := by
  refine ⟨by decide, ?_⟩
  have := unknown_condition_kind_no_match unknownCondRule emptyCart
    emptyServerInput "mystery_kind" (by decide)
  exact this

/-- Claim C9: the storefront evaluator implements only
`product_quantity_in_range` and `cart_total_gte`; a rule containing a
condition of any other kind — including all the remaining kinds of the data
model — never matches at storefront runtime. -/
theorem storefront_unhandled_condition_no_match (r : AutoAddRule) (cart : Cart)
    (c : Condition) (hc : c ∈ r.conditions) (hun : storefrontHandled c = false) :
    evaluateRule r cart = false := by
  have hcf : evalCondJS cart c = false := by
    cases c
    case product_quantity_in_range p mn mx =>
      exact absurd hun (by simp [storefrontHandled])
    case cart_total_gte v =>
      exact absurd hun (by simp [storefrontHandled])
    all_goals rfl
  have hall : r.conditions.all (evalCondJS cart) = false := by
    rw [List.all_eq_false]
    exact ⟨c, hc, by simp [hcf]⟩
  have hne : r.conditions.isEmpty = false := by
    cases hx : r.conditions with
    | nil => rw [hx] at hc; exact absurd hc (List.not_mem_nil _)
    | cons d ds => rfl
  unfold evaluateRule
  rw [hne, hall]
  rfl

/-- Witness for claim C9 at a concrete input: a `cart_quantity_at_least`
condition (server-known, storefront-unknown) never matches at the
storefront. -/
theorem storefront_unhandled_condition_no_match_witness :
    Condition.cart_quantity_at_least 0 ∈ serverOnlyCondRule.conditions ∧
    storefrontHandled (Condition.cart_quantity_at_least 0) = false ∧
    evaluateRule serverOnlyCondRule emptyCart = false :=
  ⟨by decide, rfl,
    storefront_unhandled_condition_no_match serverOnlyCondRule emptyCart
      (Condition.cart_quantity_at_least 0) (by decide) rfl⟩

/-- Claim C10: boundary inclusivity of `cart_quantity_in_range` in the
server-side evaluator.  With min 5 and max 9 the condition holds exactly
when the total cart quantity lies in the inclusive range [5, 9] (so it
holds at 5 and 9 and fails at 4 and 10), and with `max` omitted it holds
exactly when the total quantity is at least `min`. -/
theorem cart_quantity_in_range_inclusive (input : CartTransformRunInput) (m : Int) :
    (condHolds input (Condition.cart_quantity_in_range 5 (some 9)) = true ↔
      (5 ≤ cartQuantity input ∧ cartQuantity input ≤ 9)) ∧
    (condHolds input (Condition.cart_quantity_in_range m none) = true ↔
      m ≤ cartQuantity input) := by
  constructor
  · simp [condHolds]
  · simp [condHolds]

end AutoAdd
